import Mathlib

/-!
# Node-group reconciliation of the managed OpenSearch cluster resource

A shallow embedding of `yandex/resource_yandex_mdb_opensearch_cluster.go`:

* the retry wrapper `waitOperationWithRetry` with `shouldRetry`;
* the search-tier reconciler `updateOpenSearchNodeGroupsParams`;
* the dashboard-tier reconciler `updateDashboardsNodeGroupsParams`.

Remote calls are modelled by explicit state passing: an executor receives the
remote state and the request and answers with the next remote state and an
optional error; every request handed to the executor is appended to a log.
-/

namespace OpenSearch

/-! ## Errors -/

/-- A Go `error` value.  `status` is an error carrying a gRPC status code,
`plain` any other leaf error, `wrapf` the result of `fmt.Errorf` with a `%w`
verb: it keeps the formatted text and the wrapped cause. -/
inductive GoError where
  | status (code : Nat) (text : String)
  | plain (text : String)
  | wrapf (text : String) (cause : GoError)
  deriving DecidableEq, Repr

/-- The text of `err.Error()`. -/
def GoError.Error : GoError → String
  | .status _ t => t
  | .plain t => t
  | .wrapf t _ => t

/-- The cause returned by `errors.Unwrap(err)`. -/
def GoError.Unwrap : GoError → Option GoError
  | .wrapf _ c => some c
  | _ => none

/-- The numeric value of `codes.Internal` in `google.golang.org/grpc/codes`. -/
def codesInternal : Nat := 13

/-- The pair `status.FromError(err)` reduced to what `shouldRetry` reads of it:
`some c` when `ok` is true and the status has code `c`. -/
def statusFromError : GoError → Option Nat
  | .status c _ => some c
  | _ => none

/-- Source: `shouldRetry(op, err)`.  `opFailed` is the value of `op.Failed()`
at the time of the call, `err` is `none` for a nil error. -/
def shouldRetry (opFailed : Bool) (err : Option GoError) : Bool :=
  match err with
  | some e =>
    match statusFromError e with
    | some c => if c = codesInternal then true else false
    | none => false
  | none => if opFailed then true else false

/-- Source constant `yandexMDBOpenSearchOperationsRetryCount`. -/
def yandexMDBOpenSearchOperationsRetryCount : Nat := 5

/-- What the remote side does in one run of the call-and-wait cycle:
the error of `retryConflictingOperation` (`none`: the request succeeded and an
operation handle was returned), the error of `op.Wait`, the value of
`op.Failed()` read right after `Wait`, the error of `op.Response` and the
value of `op.Failed()` read right after `Response`. -/
structure Attempt where
  request : Option GoError
  wait : Option GoError
  failedAfterWait : Bool
  response : Option GoError
  failedAfterResponse : Bool
  deriving DecidableEq, Repr

/-- The remote interactions of `waitOperationWithRetry`, in the order they
happen. -/
inductive Event where
  | request
  | wait
  | response
  | sleep
  deriving DecidableEq, Repr

/-- What a call of `waitOperationWithRetry` gives back: the returned error and
the log of its remote interactions. -/
structure WaitResult where
  err : Option GoError
  events : List Event
  deriving DecidableEq, Repr

/-- The `fmt.Errorf("error while requesting API for %s: %w", caller, err)` of
`waitOperationWithRetry`. -/
def errorWhileRequesting (caller : String) (err : GoError) : GoError :=
  .wrapf ("error while requesting API for " ++ caller ++ ": " ++ err.Error) err

/-- The `for ; retryCount > 0; retryCount--` loop of `waitOperationWithRetry`.
`remote k` is the behaviour of the remote side in the `k`-th cycle (from 0);
`err` is the function-level variable `var err error`.  Inside the loop body
the statement `op, err := retryConflictingOperation(...)` declares a new
`err` in the scope of the body (`op` was declared in that block, `err` was
not), so the assignments `err = op.Wait(ctx)` and `_, err = op.Response()`
write the body-local variable (`errBody` below) and the function-level `err`
is passed on unchanged. -/
def waitLoop (caller : String) (remote : Nat → Attempt) :
    (retryCount : Nat) → (k : Nat) → (err : Option GoError) → List Event → WaitResult
  | 0, _, err, log => ⟨err, log⟩
  | retryCount + 1, k, err, log =>
    match (remote k).request with
    | some e => ⟨some (errorWhileRequesting caller e), log ++ [Event.request]⟩
    | none =>
      let errBody := (remote k).wait
      if shouldRetry (remote k).failedAfterWait errBody then
        waitLoop caller remote retryCount (k + 1) err
          (log ++ [Event.request, Event.wait, Event.sleep])
      else
        let errBody := (remote k).response
        if shouldRetry (remote k).failedAfterResponse errBody then
          waitLoop caller remote retryCount (k + 1) err
            (log ++ [Event.request, Event.wait, Event.response, Event.sleep])
        else
          ⟨err, log ++ [Event.request, Event.wait, Event.response]⟩

/-- A cycle after which the loop goes on (`continue`): the request succeeded
and `shouldRetry` held after `Wait` or after `Response`. -/
def Attempt.retried (a : Attempt) : Bool :=
  a.request.isNone &&
    (shouldRetry a.failedAfterWait a.wait || shouldRetry a.failedAfterResponse a.response)

/-- The remote interactions of one retried cycle. -/
def Attempt.retriedEvents (a : Attempt) : List Event :=
  if shouldRetry a.failedAfterWait a.wait then [Event.request, Event.wait, Event.sleep]
  else [Event.request, Event.wait, Event.response, Event.sleep]

/-- The remote interactions of the `m` retried cycles `k, ..., k + m - 1`. -/
def retriedLog (remote : Nat → Attempt) : (k m : Nat) → List Event
  | _, 0 => []
  | k, m + 1 => (remote k).retriedEvents ++ retriedLog remote (k + 1) m

/-- Source: `waitOperationWithRetry(ctx, config, caller, action)`. -/
def waitOperationWithRetry (caller : String) (remote : Nat → Attempt) : WaitResult :=
  waitLoop caller remote yandexMDBOpenSearchOperationsRetryCount 0 none []

/-- A remote side whose third request is refused after two retried cycles. -/
def remoteThirdRequestFails : Nat → Attempt := fun k =>
  if k = 0 then ⟨none, some (.status 13 "internal"), false, none, false⟩
  else if k = 1 then ⟨none, none, false, none, true⟩
  else ⟨some (.plain "connection refused"), none, false, none, false⟩

/-- A remote side on which the request succeeds and the operation fails for
good: `Wait` and `Response` both return a gRPC error with code 7
(`PermissionDenied`). -/
def remotePermissionDenied : Nat → Attempt := fun _ =>
  ⟨none, some (.status 7 "permission denied"), true,
    some (.status 7 "permission denied"), true⟩

/-- A remote side on which every request succeeds and every `Wait` returns a
gRPC error with code 13 (`Internal`). -/
def remoteAlwaysInternal : Nat → Attempt := fun _ =>
  ⟨none, some (.status 13 "internal error"), true, some (.status 13 "internal error"), true⟩

/-! ## Data model

The node-group messages are declared in the generated API package, outside
the file embedded here; they are modelled from the data model of the
specification. -/

/-- Modelled from the spec: the role enumeration of a search-tier node group
(`opensearch.OpenSearch_GroupRole`), `roles: set of enum{DATA, MANAGER}`. -/
inductive GroupRole where
  | DATA
  | MANAGER
  deriving DecidableEq, Repr

/-- Modelled from the spec: the resource shape of a node group
(`opensearch.Resources`), `resource_shape: {preset_id, disk_size, disk_type}`. -/
structure Resources where
  ResourcePresetId : String
  DiskSize : Nat
  DiskTypeId : String
  deriving DecidableEq

/-- Modelled from the spec: a search-tier node group
(`opensearch.OpenSearchCreateSpec_NodeGroup`):
`{name, resource_shape, hosts_count: non-negative integer, zone_ids: set of
string, subnet_ids: set of string, assign_public_ip: bool, roles: set of
enum}`. -/
structure NodeGroup where
  Name : String
  Resources : Resources
  HostsCount : Nat
  ZoneIds : Finset String
  SubnetIds : Finset String
  AssignPublicIp : Bool
  Roles : Finset GroupRole
  deriving DecidableEq

/-- Modelled from the spec: a dashboard-tier node group
(`opensearch.DashboardsCreateSpec_NodeGroup`), "same shape minus `roles`". -/
structure DashboardsNodeGroup where
  Name : String
  Resources : Resources
  HostsCount : Nat
  ZoneIds : Finset String
  SubnetIds : Finset String
  AssignPublicIp : Bool
  deriving DecidableEq

/-! ## Group classifier and request builders

These helpers are called by the reconcilers and defined in another file of
the package. -/

/-- Modelled from the spec: `dedicatedManagersGroup(g)`, the classifier
`isDedicatedManagerGroup(g)` of the specification, "true iff
`g.roles == {MANAGER}` exactly". -/
def dedicatedManagersGroup (g : NodeGroup) : Bool :=
  decide (g.Roles = {GroupRole.MANAGER})

/-- Modelled from the spec: `hasManagerRole(g)`, "true iff `MANAGER ∈ g.roles`
(regardless of DATA)". -/
def hasManagerRole (g : NodeGroup) : Bool :=
  decide (GroupRole.MANAGER ∈ g.Roles)

/-- Modelled from the spec: the changed fields of an update, the content of
`request.UpdateMask.Paths`.  The specification emits an update "only if at
least one mutable field differs" and requires the applied plan to carry over
every field value; the key `name` is equal on both sides of a comparison, so
every other field of the data model is compared, in the order of the data
model. -/
def changedFields (oldGroup newGroup : NodeGroup) : List String :=
  (if oldGroup.Resources = newGroup.Resources then [] else ["resources"]) ++
  (if oldGroup.HostsCount = newGroup.HostsCount then [] else ["hosts_count"]) ++
  (if oldGroup.ZoneIds = newGroup.ZoneIds then [] else ["zone_ids"]) ++
  (if oldGroup.SubnetIds = newGroup.SubnetIds then [] else ["subnet_ids"]) ++
  (if oldGroup.AssignPublicIp = newGroup.AssignPublicIp then [] else ["assign_public_ip"]) ++
  (if oldGroup.Roles = newGroup.Roles then [] else ["roles"])

/-- Modelled from the spec: the changed fields of a dashboard-tier update. -/
def dashboardsChangedFields (oldGroup newGroup : DashboardsNodeGroup) : List String :=
  (if oldGroup.Resources = newGroup.Resources then [] else ["resources"]) ++
  (if oldGroup.HostsCount = newGroup.HostsCount then [] else ["hosts_count"]) ++
  (if oldGroup.ZoneIds = newGroup.ZoneIds then [] else ["zone_ids"]) ++
  (if oldGroup.SubnetIds = newGroup.SubnetIds then [] else ["subnet_ids"]) ++
  (if oldGroup.AssignPublicIp = newGroup.AssignPublicIp then [] else ["assign_public_ip"])

/-- Modelled from the spec: the three remote mutations of a tier,
`CREATE(spec) | UPDATE(oldSpec, newSpec, changedFields) | DELETE(spec)`; they
stand for the Add, Update and Delete node-group requests.  The cluster
identifier `d.Id()` is the same in every request of a pass and is left out. -/
inductive Request (γ : Type) where
  | CREATE (spec : γ)
  | UPDATE (oldSpec newSpec : γ) (UpdateMask : List String)
  | DELETE (spec : γ)
  deriving DecidableEq

/-- Modelled from the spec: `createAddOpenSearchNodeGroupRequest(d.Id(), g)`;
the specification names no failure of a request builder, so the builders are
total. -/
def createAddOpenSearchNodeGroupRequest (g : NodeGroup) : Request NodeGroup :=
  .CREATE g

/-- Modelled from the spec:
`createUpdateOpenSearchNodeGroupRequest(d.Id(), oldGroup, newGroup)`. -/
def createUpdateOpenSearchNodeGroupRequest (oldGroup newGroup : NodeGroup) :
    Request NodeGroup :=
  .UPDATE oldGroup newGroup (changedFields oldGroup newGroup)

/-- Modelled from the spec: `createDeleteOpenSearchNodeGroupRequest(d.Id(), g)`. -/
def createDeleteOpenSearchNodeGroupRequest (g : NodeGroup) : Request NodeGroup :=
  .DELETE g

/-- Modelled from the spec: `createAddDashboardsNodeGroupRequest(d.Id(), g)`. -/
def createAddDashboardsNodeGroupRequest (g : DashboardsNodeGroup) :
    Request DashboardsNodeGroup :=
  .CREATE g

/-- Modelled from the spec:
`createUpdateDashboardsNodeGroupRequest(d.Id(), oldGroup, newGroup)`. -/
def createUpdateDashboardsNodeGroupRequest (oldGroup newGroup : DashboardsNodeGroup) :
    Request DashboardsNodeGroup :=
  .UPDATE oldGroup newGroup (dashboardsChangedFields oldGroup newGroup)

/-- Modelled from the spec: `createDeleteDashboardsNodeGroupRequest(d.Id(), g)`. -/
def createDeleteDashboardsNodeGroupRequest (g : DashboardsNodeGroup) :
    Request DashboardsNodeGroup :=
  .DELETE g

/-- The `UpdateMask.Paths` of a request (empty for a request without mask). -/
def Request.Paths {γ : Type} : Request γ → List String
  | .UPDATE _ _ m => m
  | _ => []

/-! ## Remote executor -/

/-- The remote executor behind `makeAddOpenSearchNodeGroupRequest`,
`makeUpdateOpenSearchNodeGroupRequest`, `makeDeleteOpenSearchNodeGroupRequest`
and their dashboard-tier siblings: from the remote state and a request it
gives the next remote state and the returned error (`none` for nil). -/
abbrev Executor (σ γ : Type) := σ → Request γ → σ × Option GoError

/-- The state threaded through a reconciliation pass: the remote state and
the requests issued so far, oldest first. -/
structure Session (σ γ : Type) where
  remote : σ
  issued : List (Request γ)

/-- One blocking call of a `make...Request` function. -/
def issue {σ γ : Type} (exec : Executor σ γ) (s : Session σ γ) (r : Request γ) :
    Session σ γ × Option GoError :=
  (⟨(exec s.remote r).1, s.issued ++ [r]⟩, (exec s.remote r).2)

/-- A loop `for _, request := range requests { err := make(request); if err
!= nil { return err } }`: the result carries the error on which the function
returns, or `none` when the loop ran to its end. -/
def forEachRequest {σ γ : Type} (exec : Executor σ γ) :
    List (Request γ) → Session σ γ → Session σ γ × Option GoError
  | [], s => (s, none)
  | r :: rs, s =>
    match issue exec s r with
    | (s1, some err) => (s1, some err)
    | (s1, none) => forEachRequest exec rs s1

/-- The Go map built by `for _, g := range groups { byName[g.Name] = g }`:
a later group with the same name overwrites an earlier one. -/
def groupsByName {γ : Type} (name : γ → String) (groups : List γ) : String → Option γ :=
  groups.foldl (fun m g => fun k => if k = name g then some g else m k) (fun _ => none)

/-! ## Search-tier reconciler -/

/-- The list `groupsToCreate` after the first loop over `newGroups`: a
dedicated-manager group is put in front, another group at the end. -/
def groupsToCreate (oldGroups newGroups : List NodeGroup) : List NodeGroup :=
  newGroups.foldl
    (fun acc g =>
      match groupsByName NodeGroup.Name oldGroups g.Name with
      | some _ => acc
      | none => if dedicatedManagersGroup g then [g] ++ acc else acc ++ [g])
    []

/-- The four request lists filled by the update loop. -/
structure Buckets where
  managersToIncrease : List (Request NodeGroup)
  managersToDecrease : List (Request NodeGroup)
  dataManagersToDecrease : List (Request NodeGroup)
  otherGroupsToUpdate : List (Request NodeGroup)

/-- The body of the loop `for _, newGroup := range newGroups` that sorts the
update requests into the four lists. -/
def bucketStep (oldGroupsByName : String → Option NodeGroup) (b : Buckets)
    (newGroup : NodeGroup) : Buckets :=
  match oldGroupsByName newGroup.Name with
  | none => b
  | some oldGroup =>
    let request := createUpdateOpenSearchNodeGroupRequest oldGroup newGroup
    if request.Paths.length = 0 then b
    else if dedicatedManagersGroup newGroup then
      if newGroup.HostsCount > oldGroup.HostsCount then
        { b with managersToIncrease := b.managersToIncrease ++ [request] }
      else if newGroup.HostsCount < oldGroup.HostsCount then
        { b with managersToDecrease := b.managersToDecrease ++ [request] }
      else
        { b with otherGroupsToUpdate := b.otherGroupsToUpdate ++ [request] }
    else
      if (hasManagerRole newGroup && decide (newGroup.HostsCount < oldGroup.HostsCount))
          || (hasManagerRole oldGroup && !hasManagerRole newGroup) then
        { b with dataManagersToDecrease := b.dataManagersToDecrease ++ [request] }
      else
        { b with otherGroupsToUpdate := b.otherGroupsToUpdate ++ [request] }

/-- The four lists after the update loop. -/
def updateBuckets (oldGroups newGroups : List NodeGroup) : Buckets :=
  newGroups.foldl (bucketStep (groupsByName NodeGroup.Name oldGroups)) ⟨[], [], [], []⟩

/-- The delete requests of the loop `for _, g := range oldGroups`, one for
each group whose name is not a key of `newGroupsByName`. -/
def deleteRequests (oldGroups newGroups : List NodeGroup) : List (Request NodeGroup) :=
  (oldGroups.filter
    (fun g => (groupsByName NodeGroup.Name newGroups g.Name).isNone)).map
    createDeleteOpenSearchNodeGroupRequest

/-- Source: `updateOpenSearchNodeGroupsParams(ctx, d, meta)`, on the old and
new node groups read from the configuration change.  The loops run in the
order of the source; an error of the executor ends the function at once. -/
def updateOpenSearchNodeGroupsParams {σ : Type} (exec : Executor σ NodeGroup)
    (oldGroups newGroups : List NodeGroup) (s : Session σ NodeGroup) :
    Session σ NodeGroup × Option GoError :=
  match forEachRequest exec
      ((groupsToCreate oldGroups newGroups).map createAddOpenSearchNodeGroupRequest) s with
  | (s, some err) => (s, some err)
  | (s, none) =>
  let b := updateBuckets oldGroups newGroups
  match forEachRequest exec b.managersToIncrease s with
  | (s, some err) => (s, some err)
  | (s, none) =>
  match forEachRequest exec b.dataManagersToDecrease s with
  | (s, some err) => (s, some err)
  | (s, none) =>
  match forEachRequest exec b.otherGroupsToUpdate s with
  | (s, some err) => (s, some err)
  | (s, none) =>
  match forEachRequest exec (deleteRequests oldGroups newGroups) s with
  | (s, some err) => (s, some err)
  | (s, none) =>
  match forEachRequest exec b.managersToDecrease s with
  | (s, some err) => (s, some err)
  | (s, none) => (s, none)

/-- The requests of a successful pass of `updateOpenSearchNodeGroupsParams`,
loop after loop. -/
def searchPlan (oldGroups newGroups : List NodeGroup) : List (Request NodeGroup) :=
  (groupsToCreate oldGroups newGroups).map createAddOpenSearchNodeGroupRequest ++
  ((updateBuckets oldGroups newGroups).managersToIncrease ++
  ((updateBuckets oldGroups newGroups).dataManagersToDecrease ++
  ((updateBuckets oldGroups newGroups).otherGroupsToUpdate ++
  (deleteRequests oldGroups newGroups ++
  (updateBuckets oldGroups newGroups).managersToDecrease))))

/-! ## Dashboard-tier reconciler -/

/-- The requests of the create loop of `updateDashboardsNodeGroupsParams`. -/
def dashboardsCreateRequests (oldGroups newGroups : List DashboardsNodeGroup) :
    List (Request DashboardsNodeGroup) :=
  (newGroups.filter
    (fun g => (groupsByName DashboardsNodeGroup.Name oldGroups g.Name).isNone)).map
    createAddDashboardsNodeGroupRequest

/-- The requests of the update loop of `updateDashboardsNodeGroupsParams`: a
request with an empty update mask is skipped. -/
def dashboardsUpdateRequests (oldGroups newGroups : List DashboardsNodeGroup) :
    List (Request DashboardsNodeGroup) :=
  newGroups.filterMap
    (fun newGroup =>
      match groupsByName DashboardsNodeGroup.Name oldGroups newGroup.Name with
      | none => none
      | some oldGroup =>
        let request := createUpdateDashboardsNodeGroupRequest oldGroup newGroup
        if request.Paths.length = 0 then none else some request)

/-- The requests of the delete loop of `updateDashboardsNodeGroupsParams`. -/
def dashboardsDeleteRequests (oldGroups newGroups : List DashboardsNodeGroup) :
    List (Request DashboardsNodeGroup) :=
  (oldGroups.filter
    (fun g => (groupsByName DashboardsNodeGroup.Name newGroups g.Name).isNone)).map
    createDeleteDashboardsNodeGroupRequest

/-- Source: `updateDashboardsNodeGroupsParams(ctx, d, meta)`. -/
def updateDashboardsNodeGroupsParams {σ : Type} (exec : Executor σ DashboardsNodeGroup)
    (oldGroups newGroups : List DashboardsNodeGroup) (s : Session σ DashboardsNodeGroup) :
    Session σ DashboardsNodeGroup × Option GoError :=
  match forEachRequest exec (dashboardsCreateRequests oldGroups newGroups) s with
  | (s, some err) => (s, some err)
  | (s, none) =>
  match forEachRequest exec (dashboardsUpdateRequests oldGroups newGroups) s with
  | (s, some err) => (s, some err)
  | (s, none) =>
  match forEachRequest exec (dashboardsDeleteRequests oldGroups newGroups) s with
  | (s, some err) => (s, some err)
  | (s, none) => (s, none)

/-! ## Vocabulary for the properties of the search-tier plan -/

/-- The names of the four update lists. -/
inductive Bucket where
  | managersToIncrease
  | managersToDecrease
  | dataManagersToDecrease
  | otherGroupsToUpdate
  deriving DecidableEq, Repr

/-- The list of `b` with the given name. -/
def Buckets.get (b : Buckets) : Bucket → List (Request NodeGroup)
  | .managersToIncrease => b.managersToIncrease
  | .managersToDecrease => b.managersToDecrease
  | .dataManagersToDecrease => b.dataManagersToDecrease
  | .otherGroupsToUpdate => b.otherGroupsToUpdate

/-- The routing rule in the words of the specification: a dedicated-manager
group (judged on the new spec) whose host count grows goes to
`managersToIncrease`, one whose host count shrinks to `managersToDecrease`; a
group that is not dedicated and either still carries the manager role and
shrinks, or carried it before and no longer does, goes to
`dataManagersToDecrease`; everything else to `otherGroupsToUpdate`. -/
def specBucket (oldGroup newGroup : NodeGroup) : Bucket :=
  if dedicatedManagersGroup newGroup = true ∧ oldGroup.HostsCount < newGroup.HostsCount then
    .managersToIncrease
  else if dedicatedManagersGroup newGroup = true ∧
      newGroup.HostsCount < oldGroup.HostsCount then
    .managersToDecrease
  else if dedicatedManagersGroup newGroup = false ∧
      ((hasManagerRole newGroup = true ∧ newGroup.HostsCount < oldGroup.HostsCount) ∨
        (hasManagerRole oldGroup = true ∧ hasManagerRole newGroup = false)) then
    .dataManagersToDecrease
  else
    .otherGroupsToUpdate

/-- The creation candidates: the groups of the new snapshot whose name is not
a key of the old one, in the order of the new snapshot. -/
def creationCandidates (oldGroups newGroups : List NodeGroup) : List NodeGroup :=
  newGroups.filter (fun g => (groupsByName NodeGroup.Name oldGroups g.Name).isNone)

/-- The update request of `newGroup` when it is routed to the list `bk`. -/
def routedRequest (oldGroupsByName : String → Option NodeGroup) (bk : Bucket)
    (newGroup : NodeGroup) : Option (Request NodeGroup) :=
  match oldGroupsByName newGroup.Name with
  | none => none
  | some oldGroup =>
    if changedFields oldGroup newGroup = [] then none
    else if specBucket oldGroup newGroup = bk then
      some (createUpdateOpenSearchNodeGroupRequest oldGroup newGroup)
    else none

/-- The five stages of the fixed execution order that follow the creations. -/
inductive Stage where
  | managersToIncrease
  | dataManagersToDecrease
  | otherGroupsToUpdate
  | deletions
  | managersToDecrease
  deriving DecidableEq, Repr

/-- The place of a stage in the order
`managersToIncrease → dataManagersToDecrease → otherGroupsToUpdate →
deletions → managersToDecrease`. -/
def Stage.rank : Stage → Nat
  | .managersToIncrease => 0
  | .dataManagersToDecrease => 1
  | .otherGroupsToUpdate => 2
  | .deletions => 3
  | .managersToDecrease => 4

/-- The requests the reconciler holds for a stage. -/
def Stage.requests (oldGroups newGroups : List NodeGroup) : Stage → List (Request NodeGroup)
  | .managersToIncrease => (updateBuckets oldGroups newGroups).managersToIncrease
  | .dataManagersToDecrease => (updateBuckets oldGroups newGroups).dataManagersToDecrease
  | .otherGroupsToUpdate => (updateBuckets oldGroups newGroups).otherGroupsToUpdate
  | .deletions => deleteRequests oldGroups newGroups
  | .managersToDecrease => (updateBuckets oldGroups newGroups).managersToDecrease

/-- A number read off a request alone that grows along the plan: 0 for a
creation, then the stages in their order. -/
def Request.order : Request NodeGroup → Nat
  | .CREATE _ => 0
  | .UPDATE o n _ =>
    match specBucket o n with
    | .managersToIncrease => 1
    | .dataManagersToDecrease => 2
    | .otherGroupsToUpdate => 3
    | .managersToDecrease => 5
  | .DELETE _ => 4

/-- The name of the group a request acts on. -/
def Request.groupName : Request NodeGroup → String
  | .CREATE g => g.Name
  | .UPDATE _ n _ => n.Name
  | .DELETE g => g.Name

/-- Whether a request creates a dedicated-manager group. -/
def Request.createsDedicatedManager : Request NodeGroup → Bool
  | .CREATE g => dedicatedManagersGroup g
  | _ => false

/-- Whether a request creates a group that is not a dedicated-manager group. -/
def Request.createsOtherGroup : Request NodeGroup → Bool
  | .CREATE g => !dedicatedManagersGroup g
  | _ => false

/-- An executor that accepts every request. -/
def acceptAll {γ : Type} : Executor Unit γ := fun st _ => (st, none)

/-- A node group with the given name, roles and host count and a fixed shape. -/
def sampleGroup (name : String) (roles : Finset GroupRole) (hosts : Nat) : NodeGroup :=
  ⟨name, ⟨"s2.micro", 10, "network-ssd"⟩, hosts, {"ru-central1-a"}, {"subnet-a"}, false, roles⟩

/-- An old snapshot with five groups. -/
def sampleOld : List NodeGroup :=
  [sampleGroup "managers" {GroupRole.MANAGER} 3,
   sampleGroup "data" {GroupRole.DATA, GroupRole.MANAGER} 5,
   sampleGroup "hot" {GroupRole.DATA} 2,
   sampleGroup "legacy" {GroupRole.DATA} 1,
   sampleGroup "masters" {GroupRole.MANAGER} 5]

/-- A new snapshot: `legacy` is gone, `cold` and `coordinators` are new, and
the four retained groups change their host counts. -/
def sampleNew : List NodeGroup :=
  [sampleGroup "cold" {GroupRole.DATA} 2,
   sampleGroup "managers" {GroupRole.MANAGER} 5,
   sampleGroup "data" {GroupRole.DATA, GroupRole.MANAGER} 3,
   sampleGroup "hot" {GroupRole.DATA} 4,
   sampleGroup "masters" {GroupRole.MANAGER} 3,
   sampleGroup "coordinators" {GroupRole.MANAGER} 3]

/-- The update request of `newGroup` when its list is one of those selected
by `sel`. -/
def routedIn (oldGroupsByName : String → Option NodeGroup) (sel : Bucket → Bool)
    (newGroup : NodeGroup) : Option (Request NodeGroup) :=
  match oldGroupsByName newGroup.Name with
  | none => none
  | some oldGroup =>
    if changedFields oldGroup newGroup = [] then none
    else if sel (specBucket oldGroup newGroup) = true then
      some (createUpdateOpenSearchNodeGroupRequest oldGroup newGroup)
    else none

/-- The creation request of `newGroup` when its name is not a key of the old
snapshot. -/
def createFor (oldGroupsByName : String → Option NodeGroup) (newGroup : NodeGroup) :
    Option (Request NodeGroup) :=
  match oldGroupsByName newGroup.Name with
  | none => some (createAddOpenSearchNodeGroupRequest newGroup)
  | some _ => none

/-- The one request, if any, that the plan holds for a group of the new
snapshot: its creation when the name is new, its update when the update mask
is not empty. -/
def requestFor (oldGroupsByName : String → Option NodeGroup) (newGroup : NodeGroup) :
    Option (Request NodeGroup) :=
  match oldGroupsByName newGroup.Name with
  | none => some (createAddOpenSearchNodeGroupRequest newGroup)
  | some oldGroup =>
    if changedFields oldGroup newGroup = [] then none
    else some (createUpdateOpenSearchNodeGroupRequest oldGroup newGroup)

/-- The requests a transition calls for, in the words of the specification:
a CREATE for each group of `new` whose name does not occur in `old`, an
UPDATE for each group of `new` whose name occurs in `old` and whose update
mask against the old group of that name is not empty, a DELETE for each group
of `old` whose name does not occur in `new`. -/
def expectedRequests (oldGroups newGroups : List NodeGroup) : List (Request NodeGroup) :=
  (newGroups.filter (fun n => decide (n.Name ∉ oldGroups.map NodeGroup.Name))).map
      Request.CREATE ++
    (newGroups.filterMap
      (fun n =>
        match oldGroups.find? (fun o => decide (o.Name = n.Name)) with
        | none => none
        | some o =>
          if changedFields o n = [] then none
          else some (Request.UPDATE o n (changedFields o n))) ++
    (oldGroups.filter (fun o => decide (o.Name ∉ newGroups.map NodeGroup.Name))).map
      Request.DELETE)

/-! ## Simulated application of a plan -/

/-- Modelled from the spec: the simulated state-transition function of the
plan-correctness property, on a collection of groups keyed by name: "CREATE
adds, UPDATE replaces, DELETE removes". -/
def applyRequest (groups : List NodeGroup) : Request NodeGroup → List NodeGroup
  | .CREATE spec => groups ++ [spec]
  | .UPDATE _ newSpec _ => groups.map (fun g => if g.Name = newSpec.Name then newSpec else g)
  | .DELETE spec => groups.filter (fun g => decide (g.Name ≠ spec.Name))

/-- The collection after the requests of `plan` were applied in order. -/
def applyPlan (groups : List NodeGroup) (plan : List (Request NodeGroup)) : List NodeGroup :=
  plan.foldl applyRequest groups

/-- The hosts a group contributes to the manager capacity: its `hosts_count`
when it carries the MANAGER role. -/
def managerHostsOf (g : NodeGroup) : Nat :=
  if hasManagerRole g then g.HostsCount else 0

/-- The total `hosts_count` over the groups that carry the MANAGER role. -/
def managerHosts (groups : List NodeGroup) : Nat :=
  (groups.map managerHostsOf).sum

/-- The group a request leaves under its name, if any. -/
def Request.result : Request NodeGroup → Option NodeGroup
  | .CREATE spec => some spec
  | .UPDATE _ newSpec _ => some newSpec
  | .DELETE _ => none

/-- A request fits a collection: a CREATE brings a fresh name, an UPDATE
carries the group that the collection holds under its name, a DELETE names a
group of the collection. -/
def Request.applicable (groups : List NodeGroup) : Request NodeGroup → Prop
  | .CREATE spec => spec.Name ∉ groups.map NodeGroup.Name
  | .UPDATE oldSpec newSpec _ => oldSpec ∈ groups ∧ oldSpec.Name = newSpec.Name
  | .DELETE spec => spec ∈ groups

/-- A plan fits a collection with unique names: its requests act on distinct
names and each fits the collection. -/
def PlanFits (groups : List NodeGroup) (plan : List (Request NodeGroup)) : Prop :=
  (groups.map NodeGroup.Name).Nodup ∧ (plan.map Request.groupName).Nodup ∧
    ∀ r ∈ plan, r.applicable groups

/-- A request that lowers the manager capacity of a collection it fits: the
deletion of a group that contributes manager hosts, or an update whose new
spec contributes fewer manager hosts than the old one. -/
def Request.lowersCapacity : Request NodeGroup → Bool
  | .CREATE _ => false
  | .UPDATE oldSpec newSpec _ => decide (managerHostsOf newSpec < managerHostsOf oldSpec)
  | .DELETE spec => decide (0 < managerHostsOf spec)

/-- A request that raises the manager capacity of a collection it fits: the
creation of a group that contributes manager hosts, or an update whose new
spec contributes more manager hosts than the old one. -/
def Request.raisesCapacity : Request NodeGroup → Bool
  | .CREATE spec => decide (0 < managerHostsOf spec)
  | .UPDATE oldSpec newSpec _ => decide (managerHostsOf oldSpec < managerHostsOf newSpec)
  | .DELETE _ => false

/-- A list of requests in which no request that lowers the manager capacity
stands before a request that raises it. -/
def NoDipShape (plan : List (Request NodeGroup)) : Prop :=
  plan.Pairwise (fun a b => a.lowersCapacity = true → b.raisesCapacity = false)

/-- A dashboard-tier group with the given name and host count. -/
def sampleDashboards (name : String) (hosts : Nat) : DashboardsNodeGroup :=
  ⟨name, ⟨"s2.micro", 10, "network-ssd"⟩, hosts, {"ru-central1-a"}, {"subnet-a"}, false⟩

/-- An old snapshot in which `groupA` is a data group. -/
def gainOld : List NodeGroup :=
  [sampleGroup "groupA" {GroupRole.DATA} 5,
   sampleGroup "groupB" {GroupRole.MANAGER} 3]

/-- A new snapshot in which `groupA` became a smaller dedicated-manager group
and `groupB` is gone. -/
def gainNew : List NodeGroup :=
  [sampleGroup "groupA" {GroupRole.MANAGER} 3]

/-! ## Vocabulary for the properties of the dashboard-tier plan -/

/-- The requests of a successful pass of `updateDashboardsNodeGroupsParams`,
loop after loop. -/
def dashboardsPlan (oldGroups newGroups : List DashboardsNodeGroup) :
    List (Request DashboardsNodeGroup) :=
  dashboardsCreateRequests oldGroups newGroups ++
  (dashboardsUpdateRequests oldGroups newGroups ++
  dashboardsDeleteRequests oldGroups newGroups)

/-- The dashboard-tier sequence in the words of the specification: one
CREATE per group of `new` whose name is absent from `old`, in the order of
`new`; then one UPDATE per group of `new` whose name occurs in `old` and
whose update mask against the old group of that name is not empty, in the
order of `new`; then one DELETE per group of `old` whose name is absent from
`new`, in the order of `old`. -/
def dashboardsExpectedSequence (oldGroups newGroups : List DashboardsNodeGroup) :
    List (Request DashboardsNodeGroup) :=
  (newGroups.filter (fun n => decide (n.Name ∉ oldGroups.map DashboardsNodeGroup.Name))).map
      Request.CREATE ++
    (newGroups.filterMap
      (fun n =>
        match oldGroups.find? (fun o => decide (o.Name = n.Name)) with
        | none => none
        | some o =>
          if dashboardsChangedFields o n = [] then none
          else some (Request.UPDATE o n (dashboardsChangedFields o n))) ++
    (oldGroups.filter (fun o => decide (o.Name ∉ newGroups.map DashboardsNodeGroup.Name))).map
      Request.DELETE)

/-- An old dashboard-tier snapshot with three groups. -/
def dashboardsOld : List DashboardsNodeGroup :=
  [sampleDashboards "dashboards" 2, sampleDashboards "kibana" 1, sampleDashboards "legacy" 1]

/-- A new dashboard-tier snapshot: `legacy` is gone, `ui` and `reports` are
new, `dashboards` and `kibana` grow. -/
def dashboardsNew : List DashboardsNodeGroup :=
  [sampleDashboards "ui" 1, sampleDashboards "kibana" 2, sampleDashboards "reports" 1,
   sampleDashboards "dashboards" 3]

/-! ## Vocabulary for the behaviour of the executor -/

/-- The remote state after the executor was handed the requests of `rs` one
after the other, starting in `st`. -/
def stateAfter {σ γ : Type} (exec : Executor σ γ) (st : σ) (rs : List (Request γ)) : σ :=
  rs.foldl (fun s r => (exec s r).1) st

/-- The answer of the executor to the `k`-th request of `rs` (from 0) when
it is handed the requests of `rs` one after the other, starting in `st`;
`none` is a nil error (and the value for `k` beyond the list). -/
def answerAt {σ γ : Type} (exec : Executor σ γ) (st : σ) (rs : List (Request γ)) (k : Nat) :
    Option GoError :=
  match rs[k]? with
  | some r => (exec (stateAfter exec st (rs.take k)) r).2
  | none => none

/-- An executor that counts its calls and refuses every request on the
group `hot`. -/
def rejectHot : Executor Nat NodeGroup := fun st r =>
  (st + 1, if r.groupName = "hot" then some (.plain "quota exceeded") else none)

/-- Whether a request is a CREATE. -/
def Request.isCreate {γ : Type} : Request γ → Bool
  | .CREATE _ => true
  | _ => false

/-- A new snapshot, for an empty old one, with two dedicated-manager groups
around a data group. -/
def twoManagersNew : List NodeGroup :=
  [sampleGroup "managersA" {GroupRole.MANAGER} 3,
   sampleGroup "data" {GroupRole.DATA} 2,
   sampleGroup "managersB" {GroupRole.MANAGER} 3]

/-! ## Vocabulary for the retry budget -/

/-- The number of call-and-wait cycles of a call of `waitOperationWithRetry`:
the number of requests in its log. -/
def WaitResult.cycles (r : WaitResult) : Nat :=
  r.events.count Event.request

/-- A remote side whose operations always succeed. -/
def remoteHealthy : Nat → Attempt := fun _ => ⟨none, none, false, none, false⟩

/-! ## Host listing -/

/-- The request of `ListHosts` (`opensearch.ListClusterHostsRequest`). -/
structure ListClusterHostsRequest where
  ClusterId : String
  PageSize : Nat
  PageToken : String
  deriving DecidableEq, Repr

/-- The response of `ListHosts` (`opensearch.ListClusterHostsResponse`); the
host record `η` is not inspected by the listing loop. -/
structure ListClusterHostsResponse (η : Type) where
  Hosts : List η
  NextPageToken : String
  deriving DecidableEq, Repr

/-- The remote `ListHosts` call: from the remote state and a request it gives
the next remote state and the page or the error. -/
abbrev HostsService (σ η : Type) :=
  σ → ListClusterHostsRequest → σ × Except GoError (ListClusterHostsResponse η)

/-- What a call of `listOpensearchHosts` gives back: the remote state, the
requests it sent, oldest first, and the returned pair, the host list or the
error. -/
structure ListResult (σ η : Type) where
  remote : σ
  requests : List ListClusterHostsRequest
  result : Except GoError (List η)

/-- The `fmt.Errorf("error while getting list of hosts for '%s': %s",
clusterID, err)` of `listOpensearchHosts` (the verb is `%s`: no wrapping). -/
def errorWhileListing (clusterID : String) (err : GoError) : GoError :=
  .plain ("error while getting list of hosts for '" ++ clusterID ++ "': " ++ err.Error)

/-- The unbounded `for { ... }` loop of `listOpensearchHosts`, run for at
most `fuel` iterations; `none` means that the loop did not end within them.
`defaultMDBPageSize` is a constant of the package declared in another file. -/
def listLoop {σ η : Type} (service : HostsService σ η) (defaultMDBPageSize : Nat)
    (clusterID : String) :
    (fuel : Nat) → σ → (hosts : List η) → (pageToken : String) →
      List ListClusterHostsRequest → Option (ListResult σ η)
  | 0, _, _, _, _ => none
  | fuel + 1, st, hosts, pageToken, sent =>
    match service st ⟨clusterID, defaultMDBPageSize, pageToken⟩ with
    | (st1, .error err) =>
      some ⟨st1, sent ++ [⟨clusterID, defaultMDBPageSize, pageToken⟩],
        .error (errorWhileListing clusterID err)⟩
    | (st1, .ok resp) =>
      if resp.NextPageToken = "" ∨ resp.NextPageToken = "0" then
        some ⟨st1, sent ++ [⟨clusterID, defaultMDBPageSize, pageToken⟩],
          .ok (hosts ++ resp.Hosts)⟩
      else
        listLoop service defaultMDBPageSize clusterID fuel st1 (hosts ++ resp.Hosts)
          resp.NextPageToken (sent ++ [⟨clusterID, defaultMDBPageSize, pageToken⟩])

/-- Source: `listOpensearchHosts(ctx, config, clusterID)`, with at most
`fuel` iterations of its loop. -/
def listOpensearchHosts {σ η : Type} (fuel : Nat) (service : HostsService σ η)
    (defaultMDBPageSize : Nat) (clusterID : String) (st : σ) : Option (ListResult σ η) :=
  listLoop service defaultMDBPageSize clusterID fuel st [] "" []

/-- The requests that fetch the pages `pages` one after the other: the first
carries `pageToken`, each later one the token returned with the page before. -/
def pageRequests {η : Type} (defaultMDBPageSize : Nat) (clusterID : String) :
    (pageToken : String) → (pages : List (ListClusterHostsResponse η)) →
      List ListClusterHostsRequest
  | _, [] => []
  | pageToken, p :: rest =>
    ⟨clusterID, defaultMDBPageSize, pageToken⟩ ::
      pageRequests defaultMDBPageSize clusterID p.NextPageToken rest

/-- The answers of the service to the requests of `reqs`, sent one after the
other starting in `st`. -/
def serviceAnswers {σ η : Type} (service : HostsService σ η) :
    σ → List ListClusterHostsRequest → List (Except GoError (ListClusterHostsResponse η))
  | _, [] => []
  | st, r :: rs => (service st r).2 :: serviceAnswers service (service st r).1 rs

/-- The remote state after the requests of `reqs` were sent one after the
other starting in `st`. -/
def serviceStateAfter {σ η : Type} (service : HostsService σ η) (st : σ)
    (reqs : List ListClusterHostsRequest) : σ :=
  reqs.foldl (fun s r => (service s r).1) st

/-- The pages of a well-formed pagination: every page but the last carries a
next-page token that is neither empty nor `"0"`, the last one carries the
empty token or `"0"`. -/
def wellPaged {η : Type} : List (ListClusterHostsResponse η) → Prop
  | [] => False
  | [p] => p.NextPageToken = "" ∨ p.NextPageToken = "0"
  | p :: q :: rest =>
    (p.NextPageToken ≠ "" ∧ p.NextPageToken ≠ "0") ∧ wellPaged (q :: rest)

/-- Three pages of host names with the tokens `"a"`, `"b"` and `""`. -/
def threePages : List (ListClusterHostsResponse String) :=
  [⟨["host1", "host2"], "a"⟩, ⟨["host3"], "b"⟩, ⟨["host4", "host5"], ""⟩]

/-- A service that counts its calls and serves `threePages` by page token. -/
def threePagesService : HostsService Nat String := fun st req =>
  (st + 1,
    if req.PageToken = "" then .ok ⟨["host1", "host2"], "a"⟩
    else if req.PageToken = "a" then .ok ⟨["host3"], "b"⟩
    else if req.PageToken = "b" then .ok ⟨["host4", "host5"], ""⟩
    else .error (.plain "invalid page token"))


/-- Equality of the answers of a service is decidable. -/
instance instDecidableEqAnswer {η : Type} [DecidableEq η] :
    DecidableEq (Except GoError (ListClusterHostsResponse η)) := fun a b =>
  match a, b with
  | .ok x, .ok y =>
    if h : x = y then isTrue (by rw [h]) else isFalse (fun e => h (by cases e; rfl))
  | .error x, .error y =>
    if h : x = y then isTrue (by rw [h]) else isFalse (fun e => h (by cases e; rfl))
  | .ok _, .error _ => isFalse (fun e => by cases e)
  | .error _, .ok _ => isFalse (fun e => by cases e)

/-! ## Change detection on the node groups -/

/-- A Go slice value: `none` is the nil slice, `some l` a non-nil slice with
the elements `l`. -/
abbrev GoSlice (α : Type) := Option (List α)

/-- The `len` of a slice; a nil slice has length 0. -/
def GoSlice.len {α : Type} : GoSlice α → Nat
  | none => 0
  | some l => l.length

/-- The generated Go struct `opensearch.Resources`, as `reflect.DeepEqual`
sees its data: two strings and an `int64`. -/
structure ResourcesMessage where
  ResourcePresetId : String
  DiskSize : Int
  DiskTypeId : String
  deriving DecidableEq

/-- The generated Go struct `opensearch.OpenSearchCreateSpec_NodeGroup`, as
`reflect.DeepEqual` sees its data: `Resources` is a pointer (`none` is nil),
the repeated fields `ZoneIds`, `SubnetIds` and `Roles` are Go slices, whose
order, multiplicity and nil-ness all count.  The bookkeeping fields that the
protobuf runtime keeps in a generated struct are left out. -/
structure NodeGroupMessage where
  Name : String
  Resources : Option ResourcesMessage
  HostsCount : Int
  ZoneIds : GoSlice String
  SubnetIds : GoSlice String
  AssignPublicIp : Bool
  Roles : GoSlice GroupRole
  deriving DecidableEq

/-- The generated Go struct `opensearch.DashboardsCreateSpec_NodeGroup`, as
`reflect.DeepEqual` sees its data. -/
structure DashboardsNodeGroupMessage where
  Name : String
  Resources : Option ResourcesMessage
  HostsCount : Int
  ZoneIds : GoSlice String
  SubnetIds : GoSlice String
  AssignPublicIp : Bool
  deriving DecidableEq

/-- The `reflect.DeepEqual` of two slices: both nil, or both non-nil with the
same length and deeply equal elements place by place; a nil slice and an
empty non-nil slice are not deeply equal.  For the element types used below
(pointers to the message structs above, `none` being a nil pointer) deep
equality of two elements is equality of the Lean values: strings, integers
and booleans are compared by value, pointers are both nil or point to deeply
equal structs, and inner slices are compared by this same rule. -/
def reflectDeepEqual {α : Type} [DecidableEq α] (a b : GoSlice α) : Bool :=
  match a, b with
  | none, none => true
  | some x, some y => decide (x = y)
  | _, _ => false

/-- The message `opensearch.OpenSearchCreateSpec`, reduced to the field read
by the change detection: the slice `[]*OpenSearchCreateSpec_NodeGroup`. -/
structure OpenSearchCreateSpec where
  NodeGroups : GoSlice (Option NodeGroupMessage)
  deriving DecidableEq

/-- The message `opensearch.DashboardsCreateSpec`, reduced to the field read
by the change detection: the slice `[]*DashboardsCreateSpec_NodeGroup`. -/
structure DashboardsCreateSpec where
  NodeGroups : GoSlice (Option DashboardsNodeGroupMessage)
  deriving DecidableEq

/-- The message `opensearch.ConfigCreateSpec`, reduced to the two tier specs;
`none` is a nil pointer. -/
structure ConfigCreateSpec where
  OpensearchSpec : Option OpenSearchCreateSpec
  DashboardsSpec : Option DashboardsCreateSpec
  deriving DecidableEq

/-- Source: `isNodeGroupsChanged(oldConfig, newConfig)`; `none` is a nil
`*opensearch.ConfigCreateSpec`.  The first `if` of the source returns false as
soon as one of the six pointers is nil; the four tests that follow are kept in
the order of the source. -/
def isNodeGroupsChanged (oldConfig newConfig : Option ConfigCreateSpec) : Bool :=
  match oldConfig, newConfig with
  | some oldC, some newC =>
    match oldC.OpensearchSpec, newC.OpensearchSpec, oldC.DashboardsSpec, newC.DashboardsSpec with
    | some oldOS, some newOS, some oldDS, some newDS =>
      if oldOS.NodeGroups.len ≠ newOS.NodeGroups.len then true
      else if oldDS.NodeGroups.len ≠ newDS.NodeGroups.len then true
      else if !reflectDeepEqual oldOS.NodeGroups newOS.NodeGroups then true
      else if !reflectDeepEqual oldDS.NodeGroups newDS.NodeGroups then true
      else false
    | _, _, _, _ => false
  | _, _ => false

/-- The change detection without its two length comparisons. -/
def isNodeGroupsChangedWithoutLengths (oldConfig newConfig : Option ConfigCreateSpec) : Bool :=
  match oldConfig, newConfig with
  | some oldC, some newC =>
    match oldC.OpensearchSpec, newC.OpensearchSpec, oldC.DashboardsSpec, newC.DashboardsSpec with
    | some oldOS, some newOS, some oldDS, some newDS =>
      if !reflectDeepEqual oldOS.NodeGroups newOS.NodeGroups then true
      else if !reflectDeepEqual oldDS.NodeGroups newDS.NodeGroups then true
      else false
    | _, _, _, _ => false
  | _, _ => false

/-- Whether one of the six pointers read by the first test of
`isNodeGroupsChanged` is nil. -/
def someSpecIsNil (oldConfig newConfig : Option ConfigCreateSpec) : Prop :=
  oldConfig = none ∨ newConfig = none ∨
    oldConfig.bind ConfigCreateSpec.OpensearchSpec = none ∨
    newConfig.bind ConfigCreateSpec.OpensearchSpec = none ∨
    oldConfig.bind ConfigCreateSpec.DashboardsSpec = none ∨
    newConfig.bind ConfigCreateSpec.DashboardsSpec = none

/-- A search-tier group message with the given name, roles and host count. -/
def sampleMessage (name : String) (roles : List GroupRole) (hosts : Int) :
    Option NodeGroupMessage :=
  some ⟨name, some ⟨"s2.micro", 10, "network-ssd"⟩, hosts, some ["ru-central1-a"],
    some ["subnet-a"], false, some roles⟩

/-- A dashboard-tier group message with the given name and host count. -/
def sampleDashboardsMessage (name : String) (hosts : Int) :
    Option DashboardsNodeGroupMessage :=
  some ⟨name, some ⟨"s2.micro", 10, "network-ssd"⟩, hosts, some ["ru-central1-a"],
    some ["subnet-a"], false⟩

/-- A configuration without dashboards spec. -/
def configWithoutDashboards : ConfigCreateSpec :=
  ⟨some ⟨some [sampleMessage "data" [GroupRole.DATA] 3]⟩, none⟩

/-- A configuration whose only search-tier group lists the roles DATA,
MANAGER in this order. -/
def configRolesInOrder : ConfigCreateSpec :=
  ⟨some ⟨some [sampleMessage "data" [GroupRole.DATA, GroupRole.MANAGER] 3]⟩,
    some ⟨some [sampleDashboardsMessage "dashboards" 1]⟩⟩

/-- The configuration `configRolesInOrder` with the two roles listed in the
other order. -/
def configRolesSwapped : ConfigCreateSpec :=
  ⟨some ⟨some [sampleMessage "data" [GroupRole.MANAGER, GroupRole.DATA] 3]⟩,
    some ⟨some [sampleDashboardsMessage "dashboards" 1]⟩⟩

/-- The configuration `configRolesInOrder` with a nil slice of dashboard-tier
groups. -/
def configNilDashboards : ConfigCreateSpec :=
  ⟨some ⟨some [sampleMessage "data" [GroupRole.DATA, GroupRole.MANAGER] 3]⟩, some ⟨none⟩⟩

/-- The configuration `configRolesInOrder` with an empty, non-nil slice of
dashboard-tier groups. -/
def configEmptyDashboards : ConfigCreateSpec :=
  ⟨some ⟨some [sampleMessage "data" [GroupRole.DATA, GroupRole.MANAGER] 3]⟩, some ⟨some []⟩⟩

end OpenSearch

/-! # Theorems -/

namespace OpenSearch

/-! ## Loops over the executor -/

theorem forEachRequest_append_error {σ γ : Type} (exec : Executor σ γ)
    (a b : List (Request γ)) :
    ∀ (s s1 : Session σ γ) (e : GoError), forEachRequest exec a s = (s1, some e) →
      forEachRequest exec (a ++ b) s = (s1, some e) := by
  induction a with
  | nil => intro s s1 e h; simp [forEachRequest] at h
  | cons r rs ih =>
    intro s s1 e h
    simp only [List.cons_append, forEachRequest] at h ⊢
    rcases hi : issue exec s r with ⟨s2, _ | e2⟩
    · rw [hi] at h; simp only at h ⊢; exact ih s2 s1 e h
    · rw [hi] at h; simp only at h ⊢; exact h

theorem forEachRequest_append_ok {σ γ : Type} (exec : Executor σ γ)
    (a b : List (Request γ)) :
    ∀ (s s1 : Session σ γ), forEachRequest exec a s = (s1, none) →
      forEachRequest exec (a ++ b) s = forEachRequest exec b s1 := by
  induction a with
  | nil => intro s s1 h; simp [forEachRequest] at h; simp [h]
  | cons r rs ih =>
    intro s s1 h
    simp only [List.cons_append, forEachRequest] at h ⊢
    rcases hi : issue exec s r with ⟨s2, _ | e2⟩
    · rw [hi] at h; simp only at h ⊢; exact ih s2 s1 h
    · rw [hi] at h; simp at h

/-- The search-tier reconciler is the sequential run of its plan. -/
theorem updateOpenSearchNodeGroupsParams_eq_forEachRequest {σ : Type}
    (exec : Executor σ NodeGroup) (oldGroups newGroups : List NodeGroup)
    (s : Session σ NodeGroup) :
    updateOpenSearchNodeGroupsParams exec oldGroups newGroups s =
      forEachRequest exec (searchPlan oldGroups newGroups) s := by
  unfold updateOpenSearchNodeGroupsParams searchPlan
  rcases h1 : forEachRequest exec
      ((groupsToCreate oldGroups newGroups).map createAddOpenSearchNodeGroupRequest) s
    with ⟨s1, _ | e⟩
  swap
  · rw [forEachRequest_append_error exec _ _ s s1 e h1]
  rw [forEachRequest_append_ok exec _ _ s s1 h1]
  simp only
  rcases h2 : forEachRequest exec (updateBuckets oldGroups newGroups).managersToIncrease s1
    with ⟨s2, _ | e⟩
  swap
  · rw [forEachRequest_append_error exec _ _ s1 s2 e h2]
  rw [forEachRequest_append_ok exec _ _ s1 s2 h2]
  simp only
  rcases h3 : forEachRequest exec (updateBuckets oldGroups newGroups).dataManagersToDecrease s2
    with ⟨s3, _ | e⟩
  swap
  · rw [forEachRequest_append_error exec _ _ s2 s3 e h3]
  rw [forEachRequest_append_ok exec _ _ s2 s3 h3]
  simp only
  rcases h4 : forEachRequest exec (updateBuckets oldGroups newGroups).otherGroupsToUpdate s3
    with ⟨s4, _ | e⟩
  swap
  · rw [forEachRequest_append_error exec _ _ s3 s4 e h4]
  rw [forEachRequest_append_ok exec _ _ s3 s4 h4]
  simp only
  rcases h5 : forEachRequest exec (deleteRequests oldGroups newGroups) s4 with ⟨s5, _ | e⟩
  swap
  · rw [forEachRequest_append_error exec _ _ s4 s5 e h5]
  rw [forEachRequest_append_ok exec _ _ s4 s5 h5]
  simp only
  rcases h6 : forEachRequest exec (updateBuckets oldGroups newGroups).managersToDecrease s5
    with ⟨s6, _ | e⟩ <;> rfl

/-- With an executor that never fails a loop issues all its requests. -/
theorem forEachRequest_of_success {σ γ : Type} (exec : Executor σ γ)
    (hok : ∀ st r, (exec st r).2 = none) (rs : List (Request γ)) :
    ∀ s : Session σ γ, (forEachRequest exec rs s).1.issued = s.issued ++ rs ∧
      (forEachRequest exec rs s).2 = none := by
  induction rs with
  | nil => intro s; simp [forEachRequest]
  | cons r rs ih =>
    intro s
    have hi : issue exec s r = (⟨(exec s.remote r).1, s.issued ++ [r]⟩, none) := by
      simp [issue, hok]
    simp only [forEachRequest, hi]
    have := ih ⟨(exec s.remote r).1, s.issued ++ [r]⟩
    simpa using this

/-- Whatever the executor does, a loop issues an initial segment of its
requests, and all of them when it ends without error. -/
theorem forEachRequest_issued_take {σ γ : Type} (exec : Executor σ γ)
    (rs : List (Request γ)) :
    ∀ s : Session σ γ, ∃ k, k ≤ rs.length ∧
      (forEachRequest exec rs s).1.issued = s.issued ++ rs.take k ∧
      ((forEachRequest exec rs s).2 = none → k = rs.length) ∧ (rs ≠ [] → 0 < k) := by
  induction rs with
  | nil => intro s; exact ⟨0, by simp [forEachRequest]⟩
  | cons r rs ih =>
    intro s
    simp only [forEachRequest]
    rcases hi : issue exec s r with ⟨s2, _ | e2⟩
    · obtain ⟨k, hk, hlog, hnone, _⟩ := ih s2
      have hs2 : s2.issued = s.issued ++ [r] := by
        have := congrArg (fun p => p.1.issued) hi
        simpa [issue] using this.symm
      refine ⟨k + 1, by simpa using hk, ?_, ?_, fun _ => Nat.succ_pos k⟩
      · simp only [hlog, hs2, List.take_succ_cons, List.append_assoc, List.singleton_append]
      · intro h; simpa using hnone h
    · have hs2 : s2.issued = s.issued ++ [r] := by
        have := congrArg (fun p => p.1.issued) hi
        simpa [issue] using this.symm
      exact ⟨1, by simp, by simp [hs2], by simp, fun _ => Nat.one_pos⟩

/-! ## The maps from names to groups -/

theorem groupsByName_foldl_of_not_mem {γ : Type} (name : γ → String) (k : String) :
    ∀ (gs : List γ) (m : String → Option γ), k ∉ gs.map name →
      gs.foldl (fun m g => fun k => if k = name g then some g else m k) m k = m k := by
  intro gs
  induction gs with
  | nil => intro m _; rfl
  | cons g gs ih =>
    intro m h
    simp only [List.map_cons, List.mem_cons, not_or] at h
    rw [List.foldl_cons, ih _ h.2]
    simp [h.1]

theorem groupsByName_foldl_of_mem {γ : Type} (name : γ → String) (k : String) :
    ∀ (gs : List γ) (m : String → Option γ), k ∈ gs.map name →
      ∃ g, g ∈ gs ∧ name g = k ∧
        gs.foldl (fun m g => fun k => if k = name g then some g else m k) m k = some g := by
  intro gs
  induction gs with
  | nil => intro m h; simp at h
  | cons g gs ih =>
    intro m h
    rw [List.foldl_cons]
    by_cases hk : k ∈ gs.map name
    · obtain ⟨g1, hg1, hn, hf⟩ := ih _ hk
      exact ⟨g1, List.mem_cons_of_mem _ hg1, hn, hf⟩
    · have hg : name g = k := by
        simp only [List.map_cons, List.mem_cons] at h
        rcases h with h | h
        · exact h.symm
        · exact absurd h hk
      refine ⟨g, List.mem_cons_self _ _, hg, ?_⟩
      rw [groupsByName_foldl_of_not_mem name k gs _ hk]
      simp [hg]

theorem groupsByName_eq_none_iff {γ : Type} (name : γ → String) (gs : List γ) (k : String) :
    groupsByName name gs k = none ↔ k ∉ gs.map name := by
  constructor
  · intro h hk
    obtain ⟨g, _, _, hf⟩ := groupsByName_foldl_of_mem name k gs (fun _ => none) hk
    unfold groupsByName at h
    rw [h] at hf
    exact Option.noConfusion hf
  · intro h
    exact groupsByName_foldl_of_not_mem name k gs (fun _ => none) h

theorem groupsByName_some_mem {γ : Type} (name : γ → String) (gs : List γ) (k : String)
    (g : γ) (h : groupsByName name gs k = some g) : g ∈ gs ∧ name g = k := by
  by_cases hk : k ∈ gs.map name
  · obtain ⟨g1, hg1, hn, hf⟩ := groupsByName_foldl_of_mem name k gs (fun _ => none) hk
    unfold groupsByName at h
    rw [h] at hf
    cases hf
    exact ⟨hg1, hn⟩
  · rw [(groupsByName_eq_none_iff name gs k).2 hk] at h
    exact Option.noConfusion h

/-- In a snapshot with unique names the map gives back each group under its
own name. -/
theorem groupsByName_of_mem {γ : Type} (name : γ → String) (gs : List γ)
    (hnd : (gs.map name).Nodup) (g : γ) (hg : g ∈ gs) :
    groupsByName name gs (name g) = some g := by
  obtain ⟨g1, hg1, hn, hf⟩ :=
    groupsByName_foldl_of_mem name (name g) gs (fun _ => none) (List.mem_map_of_mem name hg)
  have : g1 = g := List.inj_on_of_nodup_map hnd hg1 hg hn
  rw [← this]
  rw [← this] at hf
  simpa [groupsByName, hn] using hf

/-! ## The lists built by the search-tier reconciler -/

theorem groupsToCreate_foldl (m : String → Option NodeGroup) :
    ∀ (newGroups acc : List NodeGroup),
      newGroups.foldl
        (fun acc g =>
          match m g.Name with
          | some _ => acc
          | none => if dedicatedManagersGroup g then [g] ++ acc else acc ++ [g])
        acc =
      ((newGroups.filter (fun g => (m g.Name).isNone)).filter
          (fun g => dedicatedManagersGroup g)).reverse ++ acc ++
        (newGroups.filter (fun g => (m g.Name).isNone)).filter
          (fun g => !dedicatedManagersGroup g) := by
  intro newGroups
  induction newGroups with
  | nil => intro acc; simp
  | cons g gs ih =>
    intro acc
    rw [List.foldl_cons, ih]
    cases hm : m g.Name with
    | some o => simp [hm]
    | none =>
      cases hd : dedicatedManagersGroup g <;> simp [hm, hd]

/-- The creation list: the dedicated-manager candidates in reverse snapshot
order, then the other candidates in snapshot order. -/
theorem groupsToCreate_eq (oldGroups newGroups : List NodeGroup) :
    groupsToCreate oldGroups newGroups =
      ((creationCandidates oldGroups newGroups).filter
          (fun g => dedicatedManagersGroup g)).reverse ++
        (creationCandidates oldGroups newGroups).filter
          (fun g => !dedicatedManagersGroup g) := by
  unfold groupsToCreate creationCandidates
  rw [groupsToCreate_foldl]
  simp

theorem bucketStep_get (m : String → Option NodeGroup) (b : Buckets) (n : NodeGroup)
    (bk : Bucket) :
    (bucketStep m b n).get bk = b.get bk ++ (routedRequest m bk n).toList := by
  unfold bucketStep routedRequest
  cases hm : m n.Name with
  | none => simp
  | some o =>
    simp only [createUpdateOpenSearchNodeGroupRequest, Request.Paths, List.length_eq_zero]
    by_cases hc : changedFields o n = []
    · simp [hc]
    · simp only [hc, if_false]
      cases hd : dedicatedManagersGroup n
      · by_cases hx : (hasManagerRole n && decide (n.HostsCount < o.HostsCount) ||
            hasManagerRole o && !hasManagerRole n) = true
        · have hs : specBucket o n = .dataManagersToDecrease := by
            simp only [Bool.or_eq_true, Bool.and_eq_true, decide_eq_true_eq,
              Bool.not_eq_true'] at hx
            simp [specBucket, hd, hx]
          cases bk <;> simp [hx, hs, Buckets.get]
        · have hs : specBucket o n = .otherGroupsToUpdate := by
            simp only [Bool.or_eq_true, Bool.and_eq_true, decide_eq_true_eq,
              Bool.not_eq_true'] at hx
            simp [specBucket, hd, hx]
          cases bk <;> simp [hx, hs, Buckets.get]
      · rcases Nat.lt_trichotomy o.HostsCount n.HostsCount with hlt | heq | hgt
        · have hs : specBucket o n = .managersToIncrease := by
            simp [specBucket, hd, hlt]
          cases bk <;> simp [hlt, hs, Buckets.get]
        · have hs : specBucket o n = .otherGroupsToUpdate := by
            simp [specBucket, hd, heq]
          cases bk <;> simp [heq, hs, Buckets.get]
        · have hs : specBucket o n = .managersToDecrease := by
            simp [specBucket, hd, hgt, Nat.lt_asymm hgt]
          cases bk <;> simp [hgt, Nat.lt_asymm hgt, hs, Buckets.get]

theorem bucketStep_foldl_get (m : String → Option NodeGroup) (bk : Bucket) :
    ∀ (newGroups : List NodeGroup) (b : Buckets),
      (newGroups.foldl (bucketStep m) b).get bk =
        b.get bk ++ newGroups.filterMap (routedRequest m bk) := by
  intro newGroups
  induction newGroups with
  | nil => intro b; simp
  | cons n ns ih =>
    intro b
    rw [List.foldl_cons, ih, bucketStep_get]
    cases h : routedRequest m bk n <;> simp [List.filterMap_cons, h]

/-- Each update list holds the requests routed to it, in snapshot order. -/
theorem updateBuckets_get (oldGroups newGroups : List NodeGroup) (bk : Bucket) :
    (updateBuckets oldGroups newGroups).get bk =
      newGroups.filterMap (routedRequest (groupsByName NodeGroup.Name oldGroups) bk) := by
  unfold updateBuckets
  rw [bucketStep_foldl_get]
  cases bk <;> simp [Buckets.get]

/-! ## Shape of the search-tier plan -/

theorem routedRequest_eq_some (m : String → Option NodeGroup) (bk : Bucket) (n : NodeGroup)
    (r : Request NodeGroup) :
    routedRequest m bk n = some r ↔
      ∃ o, m n.Name = some o ∧ changedFields o n ≠ [] ∧ specBucket o n = bk ∧
        r = .UPDATE o n (changedFields o n) := by
  unfold routedRequest
  cases hm : m n.Name with
  | none => simp
  | some o =>
    by_cases hc : changedFields o n = []
    · simp [hc]
    · by_cases hb : specBucket o n = bk
      · simp only [hc, hb, if_true, if_false, createUpdateOpenSearchNodeGroupRequest,
          Option.some.injEq]
        constructor
        · intro h; exact ⟨o, rfl, hc, hb, h.symm⟩
        · rintro ⟨o1, h1, _, _, h4⟩; cases h1; exact h4.symm
      · simp only [hc, hb, if_false]
        constructor
        · intro h; exact Option.noConfusion h
        · rintro ⟨o1, h1, _, h3, _⟩; cases h1; exact absurd h3 hb

theorem mem_updateBuckets_get (oldGroups newGroups : List NodeGroup) (bk : Bucket)
    (r : Request NodeGroup) :
    r ∈ (updateBuckets oldGroups newGroups).get bk ↔
      ∃ o n, n ∈ newGroups ∧ groupsByName NodeGroup.Name oldGroups n.Name = some o ∧
        changedFields o n ≠ [] ∧ specBucket o n = bk ∧
        r = .UPDATE o n (changedFields o n) := by
  rw [updateBuckets_get, List.mem_filterMap]
  constructor
  · rintro ⟨n, hn, h⟩
    obtain ⟨o, h1, h2, h3, h4⟩ := (routedRequest_eq_some _ bk n r).1 h
    exact ⟨o, n, hn, h1, h2, h3, h4⟩
  · rintro ⟨o, n, hn, h1, h2, h3, h4⟩
    exact ⟨n, hn, (routedRequest_eq_some _ bk n r).2 ⟨o, h1, h2, h3, h4⟩⟩

theorem mem_deleteRequests (oldGroups newGroups : List NodeGroup) (r : Request NodeGroup) :
    r ∈ deleteRequests oldGroups newGroups ↔
      ∃ g, g ∈ oldGroups ∧ g.Name ∉ newGroups.map NodeGroup.Name ∧ r = .DELETE g := by
  unfold deleteRequests
  simp only [List.mem_map, List.mem_filter, Option.isNone_iff_eq_none,
    groupsByName_eq_none_iff, createDeleteOpenSearchNodeGroupRequest]
  constructor
  · rintro ⟨g, ⟨hg, hn⟩, rfl⟩; exact ⟨g, hg, hn, rfl⟩
  · rintro ⟨g, hg, hn, rfl⟩; exact ⟨g, ⟨hg, hn⟩, rfl⟩

theorem mem_groupsToCreate (oldGroups newGroups : List NodeGroup) (g : NodeGroup) :
    g ∈ groupsToCreate oldGroups newGroups ↔
      g ∈ newGroups ∧ g.Name ∉ oldGroups.map NodeGroup.Name := by
  rw [groupsToCreate_eq]
  simp only [List.mem_append, List.mem_reverse, List.mem_filter, creationCandidates,
    Option.isNone_iff_eq_none, groupsByName_eq_none_iff]
  cases dedicatedManagersGroup g <;> simp

theorem order_of_mem_stage (oldGroups newGroups : List NodeGroup) (a : Stage)
    (r : Request NodeGroup) (h : r ∈ a.requests oldGroups newGroups) :
    r.order = a.rank + 1 := by
  cases a
  case deletions =>
    obtain ⟨g, _, _, rfl⟩ := (mem_deleteRequests oldGroups newGroups r).1 h
    rfl
  case managersToIncrease =>
    obtain ⟨o, n, _, _, _, hb, rfl⟩ :=
      (mem_updateBuckets_get oldGroups newGroups .managersToIncrease r).1 h
    simp [Request.order, hb, Stage.rank]
  case dataManagersToDecrease =>
    obtain ⟨o, n, _, _, _, hb, rfl⟩ :=
      (mem_updateBuckets_get oldGroups newGroups .dataManagersToDecrease r).1 h
    simp [Request.order, hb, Stage.rank]
  case otherGroupsToUpdate =>
    obtain ⟨o, n, _, _, _, hb, rfl⟩ :=
      (mem_updateBuckets_get oldGroups newGroups .otherGroupsToUpdate r).1 h
    simp [Request.order, hb, Stage.rank]
  case managersToDecrease =>
    obtain ⟨o, n, _, _, _, hb, rfl⟩ :=
      (mem_updateBuckets_get oldGroups newGroups .managersToDecrease r).1 h
    simp [Request.order, hb, Stage.rank]

theorem pairwise_order_append (c : Nat) (l1 l2 : List (Request NodeGroup))
    (h1 : ∀ r ∈ l1, r.order = c) (h2 : ∀ r ∈ l2, c ≤ r.order)
    (hp : l2.Pairwise (fun a b => a.order ≤ b.order)) :
    (l1 ++ l2).Pairwise (fun a b => a.order ≤ b.order) := by
  rw [List.pairwise_append]
  refine ⟨List.pairwise_of_forall_mem_list ?_, hp, ?_⟩
  · intro a ha b hb
    rw [h1 a ha, h1 b hb]
  · intro a ha b hb
    rw [h1 a ha]
    exact h2 b hb

/-- Along the plan the order number never decreases. -/
theorem searchPlan_pairwise_order (oldGroups newGroups : List NodeGroup) :
    (searchPlan oldGroups newGroups).Pairwise (fun a b => a.order ≤ b.order) := by
  have hinc := order_of_mem_stage oldGroups newGroups .managersToIncrease
  have hdd := order_of_mem_stage oldGroups newGroups .dataManagersToDecrease
  have hoth := order_of_mem_stage oldGroups newGroups .otherGroupsToUpdate
  have hdel := order_of_mem_stage oldGroups newGroups .deletions
  have hdec := order_of_mem_stage oldGroups newGroups .managersToDecrease
  simp only [Stage.requests, Stage.rank] at hinc hdd hoth hdel hdec
  unfold searchPlan
  refine pairwise_order_append 0 _ _ ?_ (fun _ _ => Nat.zero_le _) ?_
  · intro r hr
    simp only [List.mem_map, createAddOpenSearchNodeGroupRequest] at hr
    obtain ⟨g, _, rfl⟩ := hr
    rfl
  refine pairwise_order_append 1 _ _ (fun r hr => hinc r hr) ?_ ?_
  · intro r hr
    simp only [List.mem_append] at hr
    rcases hr with h | h | h | h
    · rw [hdd r h]; omega
    · rw [hoth r h]; omega
    · rw [hdel r h]; omega
    · rw [hdec r h]; omega
  refine pairwise_order_append 2 _ _ (fun r hr => hdd r hr) ?_ ?_
  · intro r hr
    simp only [List.mem_append] at hr
    rcases hr with h | h | h
    · rw [hoth r h]; omega
    · rw [hdel r h]; omega
    · rw [hdec r h]; omega
  refine pairwise_order_append 3 _ _ (fun r hr => hoth r hr) ?_ ?_
  · intro r hr
    simp only [List.mem_append] at hr
    rcases hr with h | h
    · rw [hdel r h]; omega
    · rw [hdec r h]; omega
  refine pairwise_order_append 4 _ _ (fun r hr => hdel r hr) ?_ ?_
  · intro r hr
    rw [hdec r hr]; omega
  · exact List.pairwise_of_forall_mem_list (fun a ha b hb => by rw [hdec a ha, hdec b hb])

/-- The log of a pass that starts with an empty log and an executor that
never fails is the plan. -/
theorem issued_of_success {σ : Type} (exec : Executor σ NodeGroup)
    (hok : ∀ st r, (exec st r).2 = none) (oldGroups newGroups : List NodeGroup) (st : σ) :
    (updateOpenSearchNodeGroupsParams exec oldGroups newGroups ⟨st, []⟩).1.issued =
      searchPlan oldGroups newGroups := by
  rw [updateOpenSearchNodeGroupsParams_eq_forEachRequest]
  simpa using (forEachRequest_of_success exec hok (searchPlan oldGroups newGroups) ⟨st, []⟩).1

/-- Whatever the executor does, the log of a pass that starts with an empty
log is an initial segment of the plan. -/
theorem issued_eq_take {σ : Type} (exec : Executor σ NodeGroup)
    (oldGroups newGroups : List NodeGroup) (st : σ) :
    ∃ k, (updateOpenSearchNodeGroupsParams exec oldGroups newGroups ⟨st, []⟩).1.issued =
      (searchPlan oldGroups newGroups).take k := by
  rw [updateOpenSearchNodeGroupsParams_eq_forEachRequest]
  obtain ⟨k, _, h, _, _⟩ :=
    forEachRequest_issued_take exec (searchPlan oldGroups newGroups) ⟨st, []⟩
  exact ⟨k, by simpa using h⟩

theorem pairwise_getElem?_lt {α : Type} (R : α → α → Prop) (l : List α) (hp : l.Pairwise R)
    (i j : Nat) (a b : α) (hi : l[i]? = some a) (hj : l[j]? = some b) (hij : i < j) :
    R a b := by
  obtain ⟨hi1, rfl⟩ := List.getElem?_eq_some.1 hi
  obtain ⟨hj1, rfl⟩ := List.getElem?_eq_some.1 hj
  exact List.pairwise_iff_getElem.1 hp i j hi1 hj1 hij

/-- C1: in the log of a pass in which every operation succeeds, a request of
an earlier stage of `managersToIncrease → dataManagersToDecrease →
otherGroupsToUpdate → deletions → managersToDecrease` stands before every
request of a later stage, for any two snapshots. -/
theorem updateOpenSearchNodeGroupsParams_stage_order {σ : Type}
    (exec : Executor σ NodeGroup) (hok : ∀ st r, (exec st r).2 = none)
    (oldGroups newGroups : List NodeGroup) (st : σ) (a b : Stage) (i j : Nat)
    (r1 r2 : Request NodeGroup)
    (hi : (updateOpenSearchNodeGroupsParams exec oldGroups newGroups ⟨st, []⟩).1.issued[i]? =
      some r1)
    (hj : (updateOpenSearchNodeGroupsParams exec oldGroups newGroups ⟨st, []⟩).1.issued[j]? =
      some r2)
    (h1 : r1 ∈ a.requests oldGroups newGroups) (h2 : r2 ∈ b.requests oldGroups newGroups)
    (hab : a.rank < b.rank) : i < j := by
  rw [issued_of_success exec hok] at hi hj
  have hp := searchPlan_pairwise_order oldGroups newGroups
  have e1 := order_of_mem_stage oldGroups newGroups a r1 h1
  have e2 := order_of_mem_stage oldGroups newGroups b r2 h2
  rcases Nat.lt_trichotomy i j with h | h | h
  · exact h
  · subst h
    rw [hi] at hj
    cases hj
    omega
  · have := pairwise_getElem?_lt _ _ hp j i r2 r1 hj hi h
    simp only at this
    omega

/-- On the sample snapshots the growth of `managers` is the third request
and the shrinking of `masters` the seventh. -/
theorem updateOpenSearchNodeGroupsParams_stage_order_witness :
    (updateOpenSearchNodeGroupsParams acceptAll sampleOld sampleNew ⟨(), []⟩).1.issued[2]? =
      some (.UPDATE (sampleGroup "managers" {GroupRole.MANAGER} 3)
        (sampleGroup "managers" {GroupRole.MANAGER} 5) ["hosts_count"]) ∧
    (updateOpenSearchNodeGroupsParams acceptAll sampleOld sampleNew ⟨(), []⟩).1.issued[6]? =
      some (.UPDATE (sampleGroup "masters" {GroupRole.MANAGER} 5)
        (sampleGroup "masters" {GroupRole.MANAGER} 3) ["hosts_count"]) ∧
    (2 : Nat) < 6 :=
  ⟨by decide, by decide,
    updateOpenSearchNodeGroupsParams_stage_order acceptAll (fun _ _ => rfl) sampleOld sampleNew ()
      .managersToIncrease .managersToDecrease 2 6
      (.UPDATE (sampleGroup "managers" {GroupRole.MANAGER} 3)
        (sampleGroup "managers" {GroupRole.MANAGER} 5) ["hosts_count"])
      (.UPDATE (sampleGroup "masters" {GroupRole.MANAGER} 5)
        (sampleGroup "masters" {GroupRole.MANAGER} 3) ["hosts_count"])
      (by decide) (by decide) (by decide) (by decide) (by decide)⟩

/-- C5: the update request of a group found under its name in the old
snapshot, with a non-empty update mask, is in exactly one of the four lists,
the one the routing rule `specBucket` names: `managersToIncrease` for a
dedicated group that grows, `managersToDecrease` for a dedicated group that
shrinks, `dataManagersToDecrease` for a group that is not dedicated and
either carries the manager role and shrinks or drops the manager role, and
`otherGroupsToUpdate` in every other case. -/
theorem updateBuckets_routing (oldGroups newGroups : List NodeGroup) (o n : NodeGroup)
    (hn : n ∈ newGroups) (ho : groupsByName NodeGroup.Name oldGroups n.Name = some o)
    (hc : changedFields o n ≠ []) (bk : Bucket) :
    createUpdateOpenSearchNodeGroupRequest o n ∈ (updateBuckets oldGroups newGroups).get bk ↔
      bk = specBucket o n := by
  rw [mem_updateBuckets_get]
  constructor
  · rintro ⟨o1, n1, _, _, _, hb, heq⟩
    simp only [createUpdateOpenSearchNodeGroupRequest, Request.UPDATE.injEq] at heq
    obtain ⟨h1, h2, _⟩ := heq
    subst h1 h2
    exact hb.symm
  · intro hb
    exact ⟨o, n, hn, ho, hc, hb.symm, rfl⟩

/-- Scenario C of the specification: the group drops the manager role. -/
theorem updateBuckets_routing_witness :
    createUpdateOpenSearchNodeGroupRequest
        (sampleGroup "groupA" {GroupRole.DATA, GroupRole.MANAGER} 3)
        (sampleGroup "groupA" {GroupRole.DATA} 3) ∈
      (updateBuckets [sampleGroup "groupA" {GroupRole.DATA, GroupRole.MANAGER} 3]
        [sampleGroup "groupA" {GroupRole.DATA} 3]).get .dataManagersToDecrease ↔
      Bucket.dataManagersToDecrease =
        specBucket (sampleGroup "groupA" {GroupRole.DATA, GroupRole.MANAGER} 3)
          (sampleGroup "groupA" {GroupRole.DATA} 3) :=
  updateBuckets_routing [sampleGroup "groupA" {GroupRole.DATA, GroupRole.MANAGER} 3]
    [sampleGroup "groupA" {GroupRole.DATA} 3]
    (sampleGroup "groupA" {GroupRole.DATA, GroupRole.MANAGER} 3)
    (sampleGroup "groupA" {GroupRole.DATA} 3) (by decide) (by decide) (by decide)
    .dataManagersToDecrease

theorem not_create_of_mem_updateBuckets (oldGroups newGroups : List NodeGroup) (bk : Bucket)
    (r : Request NodeGroup) (h : r ∈ (updateBuckets oldGroups newGroups).get bk) :
    r.createsDedicatedManager = false := by
  obtain ⟨o, n, _, _, _, _, rfl⟩ := (mem_updateBuckets_get oldGroups newGroups bk r).1 h
  rfl

/-- In the plan no creation of another group stands before the creation of
a dedicated-manager group. -/
theorem searchPlan_pairwise_creation (oldGroups newGroups : List NodeGroup) :
    (searchPlan oldGroups newGroups).Pairwise
      (fun a b => a.createsOtherGroup = true → b.createsDedicatedManager = false) := by
  have hsplit : searchPlan oldGroups newGroups =
      (((creationCandidates oldGroups newGroups).filter
          (fun g => dedicatedManagersGroup g)).reverse.map createAddOpenSearchNodeGroupRequest) ++
      ((((creationCandidates oldGroups newGroups).filter
          (fun g => !dedicatedManagersGroup g)).map createAddOpenSearchNodeGroupRequest) ++
        ((updateBuckets oldGroups newGroups).get .managersToIncrease ++
        ((updateBuckets oldGroups newGroups).get .dataManagersToDecrease ++
        ((updateBuckets oldGroups newGroups).get .otherGroupsToUpdate ++
        (deleteRequests oldGroups newGroups ++
        (updateBuckets oldGroups newGroups).get .managersToDecrease))))) := by
    unfold searchPlan
    rw [groupsToCreate_eq]
    simp [Buckets.get]
  rw [hsplit, List.pairwise_append]
  have hA : ∀ a ∈ ((creationCandidates oldGroups newGroups).filter
      (fun g => dedicatedManagersGroup g)).reverse.map createAddOpenSearchNodeGroupRequest,
      a.createsOtherGroup = false := by
    intro a ha
    simp only [List.mem_map, List.mem_reverse, List.mem_filter] at ha
    obtain ⟨g, ⟨_, hd⟩, rfl⟩ := ha
    simp [createAddOpenSearchNodeGroupRequest, Request.createsOtherGroup, hd]
  have hB : ∀ b ∈ (((creationCandidates oldGroups newGroups).filter
          (fun g => !dedicatedManagersGroup g)).map createAddOpenSearchNodeGroupRequest) ++
        ((updateBuckets oldGroups newGroups).get .managersToIncrease ++
        ((updateBuckets oldGroups newGroups).get .dataManagersToDecrease ++
        ((updateBuckets oldGroups newGroups).get .otherGroupsToUpdate ++
        (deleteRequests oldGroups newGroups ++
        (updateBuckets oldGroups newGroups).get .managersToDecrease)))),
      b.createsDedicatedManager = false := by
    intro b hb
    simp only [List.mem_append] at hb
    rcases hb with h | h | h | h | h | h
    · simp only [List.mem_map, List.mem_filter] at h
      obtain ⟨g, ⟨_, hd⟩, rfl⟩ := h
      simpa [createAddOpenSearchNodeGroupRequest, Request.createsDedicatedManager] using hd
    · exact not_create_of_mem_updateBuckets _ _ _ b h
    · exact not_create_of_mem_updateBuckets _ _ _ b h
    · exact not_create_of_mem_updateBuckets _ _ _ b h
    · obtain ⟨g, _, _, rfl⟩ := (mem_deleteRequests oldGroups newGroups b).1 h
      rfl
    · exact not_create_of_mem_updateBuckets _ _ _ b h
  refine ⟨List.pairwise_of_forall_mem_list ?_, List.pairwise_of_forall_mem_list ?_, ?_⟩
  · intro a ha b _ h
    rw [hA a ha] at h
    exact Bool.noConfusion h
  · intro a _ b hb _
    exact hB b hb
  · intro a _ b hb _
    exact hB b hb

/-- When a creation candidate is a dedicated-manager group the plan starts
with the creation of one. -/
theorem searchPlan_head_dedicated (oldGroups newGroups : List NodeGroup) (g : NodeGroup)
    (hg : g ∈ creationCandidates oldGroups newGroups) (hd : dedicatedManagersGroup g = true) :
    ∃ g1, (searchPlan oldGroups newGroups)[0]? = some (.CREATE g1) ∧
      g1 ∈ creationCandidates oldGroups newGroups ∧ dedicatedManagersGroup g1 = true := by
  have hne : ((creationCandidates oldGroups newGroups).filter
      (fun g => dedicatedManagersGroup g)).reverse ≠ [] := by
    intro h
    have : g ∈ ((creationCandidates oldGroups newGroups).filter
        (fun g => dedicatedManagersGroup g)).reverse := by
      simp [List.mem_filter, hg, hd]
    rw [h] at this
    exact List.not_mem_nil _ this
  obtain ⟨g1, rest, hcons⟩ := List.exists_cons_of_ne_nil hne
  have hmem : g1 ∈ ((creationCandidates oldGroups newGroups).filter
      (fun g => dedicatedManagersGroup g)).reverse := by
    rw [hcons]; exact List.mem_cons_self _ _
  simp only [List.mem_reverse, List.mem_filter] at hmem
  refine ⟨g1, ?_, hmem.1, hmem.2⟩
  unfold searchPlan
  rw [groupsToCreate_eq, hcons]
  simp [createAddOpenSearchNodeGroupRequest]

/-- C6: whatever the executor does, in the log of a pass the creation of a
dedicated-manager group stands before every creation of a group that is not
one; and when a creation candidate is a dedicated-manager group, the first
request of the pass creates a dedicated-manager candidate. -/
theorem updateOpenSearchNodeGroupsParams_managers_created_first {σ : Type}
    (exec : Executor σ NodeGroup) (oldGroups newGroups : List NodeGroup) (st : σ) :
    (∀ (i j : Nat) (g1 g2 : NodeGroup),
      (updateOpenSearchNodeGroupsParams exec oldGroups newGroups ⟨st, []⟩).1.issued[i]? =
        some (.CREATE g1) →
      (updateOpenSearchNodeGroupsParams exec oldGroups newGroups ⟨st, []⟩).1.issued[j]? =
        some (.CREATE g2) →
      dedicatedManagersGroup g1 = true → dedicatedManagersGroup g2 = false → i < j) ∧
    ((∃ g, g ∈ creationCandidates oldGroups newGroups ∧ dedicatedManagersGroup g = true) →
      ∃ g1, (updateOpenSearchNodeGroupsParams exec oldGroups newGroups ⟨st, []⟩).1.issued[0]? =
          some (.CREATE g1) ∧
        g1 ∈ creationCandidates oldGroups newGroups ∧ dedicatedManagersGroup g1 = true) := by
  constructor
  · intro i j g1 g2 hi hj hd1 hd2
    obtain ⟨k, hk⟩ := issued_eq_take exec oldGroups newGroups st
    rw [hk] at hi hj
    have hp := (searchPlan_pairwise_creation oldGroups newGroups).sublist
      (List.take_sublist k _)
    rcases Nat.lt_trichotomy i j with h | h | h
    · exact h
    · subst h
      rw [hi] at hj
      cases hj
      rw [hd1] at hd2
      exact Bool.noConfusion hd2
    · have := pairwise_getElem?_lt _ _ hp j i _ _ hj hi h
      simp only [Request.createsOtherGroup, Request.createsDedicatedManager, hd1, hd2] at this
      exact Bool.noConfusion (this rfl)
  · rintro ⟨g, hg, hd⟩
    obtain ⟨g1, h0, hg1, hd1⟩ := searchPlan_head_dedicated oldGroups newGroups g hg hd
    refine ⟨g1, ?_, hg1, hd1⟩
    rw [updateOpenSearchNodeGroupsParams_eq_forEachRequest]
    obtain ⟨k, _, hlog, _, hpos⟩ :=
      forEachRequest_issued_take exec (searchPlan oldGroups newGroups) ⟨st, []⟩
    have hne : searchPlan oldGroups newGroups ≠ [] := by
      intro h
      rw [h] at h0
      simp at h0
    have hk : 0 < k := hpos hne
    rw [hlog]
    simp only [List.nil_append]
    rw [List.getElem?_take_of_lt hk]
    exact h0

/-- Scenario D of the specification with the manager group listed last. -/
theorem updateOpenSearchNodeGroupsParams_managers_created_first_witness :
    (∃ g, g ∈ creationCandidates []
        [sampleGroup "groupB" {GroupRole.DATA} 2, sampleGroup "groupA" {GroupRole.MANAGER} 3] ∧
      dedicatedManagersGroup g = true) ∧
    ∃ g1, (updateOpenSearchNodeGroupsParams acceptAll []
        [sampleGroup "groupB" {GroupRole.DATA} 2, sampleGroup "groupA" {GroupRole.MANAGER} 3]
        ⟨(), []⟩).1.issued[0]? = some (.CREATE g1) ∧
      g1 ∈ creationCandidates []
        [sampleGroup "groupB" {GroupRole.DATA} 2, sampleGroup "groupA" {GroupRole.MANAGER} 3] ∧
      dedicatedManagersGroup g1 = true :=
  ⟨⟨sampleGroup "groupA" {GroupRole.MANAGER} 3, by decide, by decide⟩,
    (updateOpenSearchNodeGroupsParams_managers_created_first acceptAll []
      [sampleGroup "groupB" {GroupRole.DATA} 2, sampleGroup "groupA" {GroupRole.MANAGER} 3]
      ()).2 ⟨sampleGroup "groupA" {GroupRole.MANAGER} 3, by decide, by decide⟩⟩

/-! ## The plan as a collection of requests -/

theorem filterMap_split_perm {α β : Type} (f g h : α → Option β) :
    ∀ l : List α, (∀ a ∈ l, (f a = h a ∧ g a = none) ∨ (f a = none ∧ g a = h a)) →
      (l.filterMap f ++ l.filterMap g).Perm (l.filterMap h) := by
  intro l
  induction l with
  | nil => intro _; simp
  | cons a l ih =>
    intro H
    have ih1 := ih (fun x hx => H x (List.mem_cons_of_mem _ hx))
    rcases H a (List.mem_cons_self _ _) with ⟨hf, hg⟩ | ⟨hf, hg⟩
    · cases hh : h a with
      | none =>
        rw [hh] at hf
        simpa [List.filterMap_cons, hf, hg, hh] using ih1
      | some b =>
        rw [hh] at hf
        simpa [List.filterMap_cons, hf, hg, hh] using ih1
    · cases hh : h a with
      | none =>
        rw [hh] at hg
        simpa [List.filterMap_cons, hf, hg, hh] using ih1
      | some b =>
        rw [hh] at hg
        simp only [List.filterMap_cons, hf, hg, hh]
        exact List.perm_middle.trans (List.Perm.cons b ih1)

theorem routedRequest_eq_routedIn (m : String → Option NodeGroup) (bk : Bucket) :
    routedRequest m bk = routedIn m (fun b => decide (b = bk)) := by
  funext n
  unfold routedRequest routedIn
  cases m n.Name with
  | none => rfl
  | some o => simp

theorem routedIn_split (m : String → Option NodeGroup) (s1 s2 : Bucket → Bool)
    (hdisj : ∀ b, s1 b = true → s2 b = true → False) (l : List NodeGroup) :
    (l.filterMap (routedIn m s1) ++ l.filterMap (routedIn m s2)).Perm
      (l.filterMap (routedIn m (fun b => s1 b || s2 b))) := by
  apply filterMap_split_perm
  intro n _
  unfold routedIn
  cases m n.Name with
  | none => simp
  | some o =>
    by_cases hc : changedFields o n = []
    · simp [hc]
    · cases h1 : s1 (specBucket o n) <;> cases h2 : s2 (specBucket o n) <;> simp [hc, h1, h2]
      exact hdisj _ h1 h2

theorem createFor_routedIn_split (m : String → Option NodeGroup) (l : List NodeGroup) :
    (l.filterMap (createFor m) ++ l.filterMap (routedIn m (fun _ => true))).Perm
      (l.filterMap (requestFor m)) := by
  apply filterMap_split_perm
  intro n _
  unfold createFor routedIn requestFor
  cases m n.Name with
  | none => simp
  | some o =>
    by_cases hc : changedFields o n = []
    · simp [hc]
    · simp [hc]

theorem map_create_filter (m : String → Option NodeGroup) (l : List NodeGroup) :
    (l.filter (fun g => (m g.Name).isNone)).map createAddOpenSearchNodeGroupRequest =
      l.filterMap (createFor m) := by
  induction l with
  | nil => rfl
  | cons g l ih =>
    cases hm : m g.Name <;> simp [List.filter_cons, List.filterMap_cons, createFor, hm, ih]

theorem groupsToCreate_perm (oldGroups newGroups : List NodeGroup) :
    (groupsToCreate oldGroups newGroups).Perm (creationCandidates oldGroups newGroups) := by
  rw [groupsToCreate_eq]
  exact (List.Perm.append_right _ (List.reverse_perm _)).trans
    (List.filter_append_perm _ _)

/-- The plan holds, in some order, the request of each group of the new
snapshot and the delete requests. -/
theorem searchPlan_perm (oldGroups newGroups : List NodeGroup) :
    (searchPlan oldGroups newGroups).Perm
      (newGroups.filterMap (requestFor (groupsByName NodeGroup.Name oldGroups)) ++
        deleteRequests oldGroups newGroups) := by
  have hI := updateBuckets_get oldGroups newGroups .managersToIncrease
  have hD := updateBuckets_get oldGroups newGroups .dataManagersToDecrease
  have hO := updateBuckets_get oldGroups newGroups .otherGroupsToUpdate
  have hM := updateBuckets_get oldGroups newGroups .managersToDecrease
  simp only [Buckets.get, routedRequest_eq_routedIn] at hI hD hO hM
  unfold searchPlan
  rw [hI, hD, hO, hM]
  have hC : ((groupsToCreate oldGroups newGroups).map createAddOpenSearchNodeGroupRequest).Perm
      (newGroups.filterMap (createFor (groupsByName NodeGroup.Name oldGroups))) := by
    rw [← map_create_filter]
    exact (groupsToCreate_perm oldGroups newGroups).map _
  have h12 := routedIn_split (groupsByName NodeGroup.Name oldGroups)
    (fun b => decide (b = .managersToIncrease)) (fun b => decide (b = .dataManagersToDecrease))
    (by intro b h1 h2; simp at h1 h2; rw [h1] at h2; cases h2) newGroups
  have h123 := routedIn_split (groupsByName NodeGroup.Name oldGroups)
    (fun b => decide (b = .managersToIncrease) || decide (b = .dataManagersToDecrease))
    (fun b => decide (b = .otherGroupsToUpdate))
    (by intro b h1 h2; simp at h1 h2; rw [h2] at h1; simp at h1) newGroups
  have h1234 := routedIn_split (groupsByName NodeGroup.Name oldGroups)
    (fun b => (decide (b = .managersToIncrease) || decide (b = .dataManagersToDecrease)) ||
      decide (b = .otherGroupsToUpdate))
    (fun b => decide (b = .managersToDecrease))
    (by intro b h1 h2; simp at h1 h2; rw [h2] at h1; simp at h1) newGroups
  have hall : (fun b : Bucket =>
      ((decide (b = .managersToIncrease) || decide (b = .dataManagersToDecrease)) ||
        decide (b = .otherGroupsToUpdate)) || decide (b = .managersToDecrease)) =
      fun _ => true := by
    funext b
    cases b <;> rfl
  rw [hall] at h1234
  have hU := ((h12.append_right _).trans h123).append_right
    (newGroups.filterMap (routedIn (groupsByName NodeGroup.Name oldGroups)
      (fun b => decide (b = .managersToDecrease))))
  have hU2 := hU.trans h1234
  have hswap : (deleteRequests oldGroups newGroups ++
      newGroups.filterMap (routedIn (groupsByName NodeGroup.Name oldGroups)
        (fun b => decide (b = .managersToDecrease)))).Perm
      (newGroups.filterMap (routedIn (groupsByName NodeGroup.Name oldGroups)
        (fun b => decide (b = .managersToDecrease))) ++ deleteRequests oldGroups newGroups) :=
    List.perm_append_comm
  refine (List.Perm.append hC (List.Perm.append_left _ (List.Perm.append_left _
    (List.Perm.append_left _ hswap)))).trans ?_
  have hassoc : ∀ (c a b d e f : List (Request NodeGroup)),
      c ++ (a ++ (b ++ (d ++ (e ++ f)))) = (c ++ (((a ++ b) ++ d) ++ e)) ++ f := by
    intro c a b d e f
    simp
  rw [hassoc]
  exact List.Perm.append_right _
    ((List.Perm.append_left _ hU2).trans (createFor_routedIn_split _ _))

theorem groupsByName_eq_find? (gs : List NodeGroup) (hnd : (gs.map NodeGroup.Name).Nodup)
    (k : String) :
    groupsByName NodeGroup.Name gs k = gs.find? (fun o => decide (o.Name = k)) := by
  cases hf : gs.find? (fun o => decide (o.Name = k)) with
  | none =>
    rw [groupsByName_eq_none_iff]
    intro hk
    obtain ⟨g, hg, hname⟩ := List.mem_map.1 hk
    have := List.find?_eq_none.1 hf g hg
    simp [hname] at this
  | some g =>
    have hmem : g ∈ gs := List.mem_of_find?_eq_some hf
    have hname : g.Name = k := by simpa using List.find?_some hf
    rw [← hname]
    exact groupsByName_of_mem NodeGroup.Name gs hnd g hmem

theorem expectedRequests_eq (oldGroups newGroups : List NodeGroup)
    (hold : (oldGroups.map NodeGroup.Name).Nodup) :
    expectedRequests oldGroups newGroups =
      newGroups.filterMap (createFor (groupsByName NodeGroup.Name oldGroups)) ++
        (newGroups.filterMap (routedIn (groupsByName NodeGroup.Name oldGroups) (fun _ => true)) ++
          deleteRequests oldGroups newGroups) := by
  unfold expectedRequests
  congr 1
  · rw [← map_create_filter]
    have : (fun n : NodeGroup => decide (n.Name ∉ oldGroups.map NodeGroup.Name)) =
        fun g => (groupsByName NodeGroup.Name oldGroups g.Name).isNone := by
      funext n
      rw [Bool.eq_iff_iff]
      simp only [decide_eq_true_eq, Option.isNone_iff_eq_none, groupsByName_eq_none_iff]
    rw [this]
    rfl
  · congr 1
    · congr 1
      funext n
      unfold routedIn
      rw [groupsByName_eq_find? oldGroups hold]
      cases oldGroups.find? (fun o => decide (o.Name = n.Name)) with
      | none => rfl
      | some o => simp [createUpdateOpenSearchNodeGroupRequest]
    · unfold deleteRequests
      have : (fun o : NodeGroup => decide (o.Name ∉ newGroups.map NodeGroup.Name)) =
          fun g => (groupsByName NodeGroup.Name newGroups g.Name).isNone := by
        funext n
        rw [Bool.eq_iff_iff]
        simp only [decide_eq_true_eq, Option.isNone_iff_eq_none, groupsByName_eq_none_iff]
      rw [this]
      rfl

/-- With unique names in the old snapshot the plan is a rearrangement of the
requests the transition calls for. -/
theorem searchPlan_perm_expected (oldGroups newGroups : List NodeGroup)
    (hold : (oldGroups.map NodeGroup.Name).Nodup) :
    (searchPlan oldGroups newGroups).Perm (expectedRequests oldGroups newGroups) := by
  rw [expectedRequests_eq oldGroups newGroups hold, ← List.append_assoc]
  exact (searchPlan_perm oldGroups newGroups).trans
    (List.Perm.append_right _ (createFor_routedIn_split _ _).symm)

theorem map_filterMap_sublist {α β κ : Type} (f : α → Option β) (key1 : α → κ)
    (key2 : β → κ) (hkey : ∀ a b, f a = some b → key2 b = key1 a) :
    ∀ l : List α, ((l.filterMap f).map key2).Sublist (l.map key1) := by
  intro l
  induction l with
  | nil => simp
  | cons a l ih =>
    cases hf : f a with
    | none =>
      simp only [List.filterMap_cons, hf, List.map_cons]
      exact ih.trans (List.sublist_cons_self _ _)
    | some b =>
      simp only [List.filterMap_cons, hf, List.map_cons, hkey a b hf]
      exact ih.cons₂ _

theorem requestFor_groupName (m : String → Option NodeGroup) (n : NodeGroup)
    (r : Request NodeGroup) (h : requestFor m n = some r) : r.groupName = n.Name := by
  unfold requestFor at h
  cases hm : m n.Name with
  | none =>
    rw [hm] at h
    simp only [createAddOpenSearchNodeGroupRequest, Option.some.injEq] at h
    rw [← h]; rfl
  | some o =>
    rw [hm] at h
    by_cases hc : changedFields o n = []
    · simp [hc] at h
    · simp only [hc, if_false, createUpdateOpenSearchNodeGroupRequest, Option.some.injEq] at h
      rw [← h]; rfl

/-- With unique names in both snapshots no two requests of the plan act on
the same group name. -/
theorem searchPlan_groupName_nodup (oldGroups newGroups : List NodeGroup)
    (hold : (oldGroups.map NodeGroup.Name).Nodup) (hnew : (newGroups.map NodeGroup.Name).Nodup) :
    ((searchPlan oldGroups newGroups).map Request.groupName).Nodup := by
  rw [((searchPlan_perm oldGroups newGroups).map Request.groupName).nodup_iff, List.map_append,
    List.nodup_append]
  have hsub1 := map_filterMap_sublist (requestFor (groupsByName NodeGroup.Name oldGroups))
    NodeGroup.Name Request.groupName (requestFor_groupName _) newGroups
  have hdel : (deleteRequests oldGroups newGroups).map Request.groupName =
      (oldGroups.filter
        (fun g => (groupsByName NodeGroup.Name newGroups g.Name).isNone)).map NodeGroup.Name := by
    unfold deleteRequests
    rw [List.map_map]
    rfl
  refine ⟨hsub1.nodup hnew, ?_, ?_⟩
  · rw [hdel]
    exact ((List.filter_sublist _).map _).nodup hold
  · intro x hx1 hx2
    have h1 : x ∈ newGroups.map NodeGroup.Name := hsub1.subset hx1
    rw [hdel] at hx2
    obtain ⟨g, hg, rfl⟩ := List.mem_map.1 hx2
    rw [List.mem_filter] at hg
    have := hg.2
    rw [Option.isNone_iff_eq_none, groupsByName_eq_none_iff] at this
    exact this h1

/-- C7: with unique names in both snapshots, the log of a pass in which every
operation succeeds is a rearrangement of `expectedRequests`: a CREATE for
each group of `new` whose name is not in `old`, a DELETE for each group of
`old` whose name is not in `new`, an UPDATE for each group in both with a
non-empty update mask, nothing else, and no two requests for one name. -/
theorem updateOpenSearchNodeGroupsParams_issues_expected {σ : Type}
    (exec : Executor σ NodeGroup) (hok : ∀ st r, (exec st r).2 = none)
    (oldGroups newGroups : List NodeGroup) (st : σ)
    (hold : (oldGroups.map NodeGroup.Name).Nodup) (hnew : (newGroups.map NodeGroup.Name).Nodup) :
    ((updateOpenSearchNodeGroupsParams exec oldGroups newGroups ⟨st, []⟩).1.issued).Perm
        (expectedRequests oldGroups newGroups) ∧
      (((updateOpenSearchNodeGroupsParams exec oldGroups newGroups ⟨st, []⟩).1.issued).map
        Request.groupName).Nodup := by
  rw [issued_of_success exec hok]
  exact ⟨searchPlan_perm_expected oldGroups newGroups hold,
    searchPlan_groupName_nodup oldGroups newGroups hold hnew⟩

theorem updateOpenSearchNodeGroupsParams_issues_expected_witness :
    ((updateOpenSearchNodeGroupsParams acceptAll sampleOld sampleNew ⟨(), []⟩).1.issued).Perm
        (expectedRequests sampleOld sampleNew) ∧
      (((updateOpenSearchNodeGroupsParams acceptAll sampleOld sampleNew ⟨(), []⟩).1.issued).map
        Request.groupName).Nodup :=
  updateOpenSearchNodeGroupsParams_issues_expected acceptAll (fun _ _ => rfl) sampleOld
    sampleNew () (by decide) (by decide)

/-! ## Applying a plan -/

theorem names_applyRequest (groups : List NodeGroup) (r : Request NodeGroup) :
    (applyRequest groups r).map NodeGroup.Name =
      match r with
      | .CREATE spec => groups.map NodeGroup.Name ++ [spec.Name]
      | .UPDATE _ _ _ => groups.map NodeGroup.Name
      | .DELETE spec => (groups.map NodeGroup.Name).filter (fun k => decide (k ≠ spec.Name)) := by
  cases r with
  | CREATE spec => simp [applyRequest]
  | UPDATE o n m =>
    simp only [applyRequest, List.map_map]
    apply List.map_congr_left
    intro g _
    by_cases h : g.Name = n.Name
    · simp [h]
    · simp [h]
  | DELETE spec =>
    simp only [applyRequest, List.filter_map]
    rfl

theorem mem_applyRequest (groups : List NodeGroup) (r : Request NodeGroup)
    (hr : r.applicable groups) (g : NodeGroup) :
    g ∈ applyRequest groups r ↔
      (g ∈ groups ∧ g.Name ≠ r.groupName) ∨ r.result = some g := by
  cases r with
  | CREATE spec =>
    simp only [applyRequest, List.mem_append, List.mem_singleton, Request.groupName,
      Request.result, Option.some.injEq]
    constructor
    · rintro (h | h)
      · left
        refine ⟨h, fun hn => hr ?_⟩
        rw [← hn]
        exact List.mem_map_of_mem _ h
      · right; exact h.symm
    · rintro (h | h)
      · left; exact h.1
      · right; exact h.symm
  | UPDATE o n m =>
    simp only [applyRequest, List.mem_map, Request.groupName, Request.result,
      Option.some.injEq]
    constructor
    · rintro ⟨x, hx, hxg⟩
      by_cases h : x.Name = n.Name
      · right; simpa [h] using hxg
      · left
        have : x = g := by simpa [h] using hxg
        rw [← this]
        exact ⟨hx, h⟩
    · rintro (h | h)
      · exact ⟨g, h.1, by simp [h.2]⟩
      · exact ⟨o, hr.1, by simp [hr.2, h]⟩
  | DELETE spec =>
    simp [applyRequest, Request.groupName, Request.result]

theorem result_name (r : Request NodeGroup) (g : NodeGroup) (h : r.result = some g) :
    g.Name = r.groupName := by
  cases r with
  | CREATE spec => simp only [Request.result, Option.some.injEq] at h; rw [← h]; rfl
  | UPDATE o n m => simp only [Request.result, Option.some.injEq] at h; rw [← h]; rfl
  | DELETE spec => exact Option.noConfusion h

theorem planFits_step (groups : List NodeGroup) (r : Request NodeGroup)
    (rs : List (Request NodeGroup)) (h : PlanFits groups (r :: rs)) :
    PlanFits (applyRequest groups r) rs := by
  obtain ⟨hg, hn, ha⟩ := h
  rw [List.map_cons, List.nodup_cons] at hn
  have hr : r.applicable groups := ha r (List.mem_cons_self _ _)
  refine ⟨?_, hn.2, ?_⟩
  · rw [names_applyRequest]
    cases r with
    | CREATE spec =>
      simp only
      rw [List.nodup_append]
      refine ⟨hg, List.nodup_singleton _, ?_⟩
      intro x hx1 hx2
      rw [List.mem_singleton] at hx2
      rw [hx2] at hx1
      exact hr hx1
    | UPDATE o n m => exact hg
    | DELETE spec => exact hg.filter _
  · intro q hq
    have hq1 : q.applicable groups := ha q (List.mem_cons_of_mem _ hq)
    have hne : q.groupName ≠ r.groupName := by
      intro heq
      exact hn.1 (heq ▸ List.mem_map_of_mem _ hq)
    cases q with
    | CREATE spec =>
      simp only [Request.applicable] at hq1 ⊢
      intro hmem
      obtain ⟨x, hx, hxn⟩ := List.mem_map.1 hmem
      rcases (mem_applyRequest groups r hr x).1 hx with h1 | h1
      · exact hq1 (hxn ▸ List.mem_map_of_mem _ h1.1)
      · exact hne (by rw [← result_name r x h1]; exact hxn.symm)
    | UPDATE o n m =>
      simp only [Request.applicable] at hq1 ⊢
      refine ⟨(mem_applyRequest groups r hr o).2 (Or.inl ⟨hq1.1, ?_⟩), hq1.2⟩
      rw [hq1.2]
      exact hne
    | DELETE spec =>
      simp only [Request.applicable] at hq1 ⊢
      exact (mem_applyRequest groups r hr spec).2 (Or.inl ⟨hq1, hne⟩)

theorem planFits_applyPlan :
    ∀ (a b : List (Request NodeGroup)) (groups : List NodeGroup),
      PlanFits groups (a ++ b) → PlanFits (applyPlan groups a) b := by
  intro a
  induction a with
  | nil => intro b groups h; exact h
  | cons r rs ih =>
    intro b groups h
    exact ih b _ (planFits_step groups r (rs ++ b) h)

theorem planFits_of_sublist (groups : List NodeGroup) (a b : List (Request NodeGroup))
    (hs : a.Sublist b) (h : PlanFits groups b) : PlanFits groups a :=
  ⟨h.1, (hs.map _).nodup h.2.1, fun r hr => h.2.2 r (hs.subset hr)⟩

/-- The groups left by a fitting plan: the untouched groups of the start and
the results of the requests. -/
theorem mem_applyPlan :
    ∀ (plan : List (Request NodeGroup)) (groups : List NodeGroup), PlanFits groups plan →
      ∀ g, g ∈ applyPlan groups plan ↔
        (g ∈ groups ∧ g.Name ∉ plan.map Request.groupName) ∨
          ∃ r, r ∈ plan ∧ r.result = some g := by
  intro plan
  induction plan with
  | nil => intro groups _ g; simp [applyPlan]
  | cons r rs ih =>
    intro groups h g
    have hstep := planFits_step groups r rs h
    have hr : r.applicable groups := h.2.2 r (List.mem_cons_self _ _)
    have hn := h.2.1
    rw [List.map_cons, List.nodup_cons] at hn
    have : applyPlan groups (r :: rs) = applyPlan (applyRequest groups r) rs := rfl
    rw [this, ih _ hstep g, mem_applyRequest groups r hr g]
    constructor
    · rintro (⟨h1 | h1, h2⟩ | ⟨q, hq, hres⟩)
      · left
        refine ⟨h1.1, ?_⟩
        simp only [List.map_cons, List.mem_cons, not_or]
        exact ⟨h1.2, h2⟩
      · right; exact ⟨r, List.mem_cons_self _ _, h1⟩
      · right; exact ⟨q, List.mem_cons_of_mem _ hq, hres⟩
    · rintro (⟨h1, h2⟩ | ⟨q, hq, hres⟩)
      · simp only [List.map_cons, List.mem_cons, not_or] at h2
        left; exact ⟨Or.inl ⟨h1, h2.1⟩, h2.2⟩
      · rcases List.mem_cons.1 hq with rfl | hq1
        · left
          refine ⟨Or.inr hres, ?_⟩
          rw [result_name q g hres]
          exact hn.1
        · right; exact ⟨q, hq1, hres⟩

/-! ## Plan correctness -/

theorem changedFields_self (g : NodeGroup) : changedFields g g = [] := by
  simp [changedFields]

/-- Two groups of the same name with an empty update mask are equal. -/
theorem eq_of_changedFields_eq_nil (o n : NodeGroup) (hname : o.Name = n.Name)
    (h : changedFields o n = []) : o = n := by
  have h1 : o.Resources = n.Resources := by
    by_contra hne; simp [changedFields, hne] at h
  have h2 : o.HostsCount = n.HostsCount := by
    by_contra hne; simp [changedFields, hne] at h
  have h3 : o.ZoneIds = n.ZoneIds := by
    by_contra hne; simp [changedFields, hne] at h
  have h4 : o.SubnetIds = n.SubnetIds := by
    by_contra hne; simp [changedFields, hne] at h
  have h5 : o.AssignPublicIp = n.AssignPublicIp := by
    by_contra hne; simp [changedFields, hne] at h
  have h6 : o.Roles = n.Roles := by
    by_contra hne; simp [changedFields, hne] at h
  cases o
  cases n
  simp only [NodeGroup.mk.injEq]
  exact ⟨hname, h1, h2, h3, h4, h5, h6⟩

theorem requestFor_eq_some (m : String → Option NodeGroup) (n : NodeGroup)
    (r : Request NodeGroup) :
    requestFor m n = some r ↔
      (m n.Name = none ∧ r = .CREATE n) ∨
        ∃ o, m n.Name = some o ∧ changedFields o n ≠ [] ∧
          r = .UPDATE o n (changedFields o n) := by
  unfold requestFor
  cases hm : m n.Name with
  | none =>
    simp only [createAddOpenSearchNodeGroupRequest, Option.some.injEq, true_and, false_and,
      exists_false, or_false, reduceCtorEq]
    exact eq_comm
  | some o =>
    by_cases hc : changedFields o n = []
    · simp [hc]
    · simp only [hc, if_false, createUpdateOpenSearchNodeGroupRequest, Option.some.injEq,
        false_and, false_or, reduceCtorEq]
      constructor
      · intro h; exact ⟨o, rfl, hc, h.symm⟩
      · rintro ⟨o1, h1, _, h3⟩; cases h1; exact h3.symm

theorem mem_searchPlan (oldGroups newGroups : List NodeGroup) (r : Request NodeGroup) :
    r ∈ searchPlan oldGroups newGroups ↔
      (∃ n, n ∈ newGroups ∧ requestFor (groupsByName NodeGroup.Name oldGroups) n = some r) ∨
        r ∈ deleteRequests oldGroups newGroups := by
  rw [(searchPlan_perm oldGroups newGroups).mem_iff, List.mem_append, List.mem_filterMap]

/-- With unique names in both snapshots the plan fits the old snapshot. -/
theorem planFits_searchPlan (oldGroups newGroups : List NodeGroup)
    (hold : (oldGroups.map NodeGroup.Name).Nodup) (hnew : (newGroups.map NodeGroup.Name).Nodup) :
    PlanFits oldGroups (searchPlan oldGroups newGroups) := by
  refine ⟨hold, searchPlan_groupName_nodup oldGroups newGroups hold hnew, ?_⟩
  intro r hr
  rcases (mem_searchPlan oldGroups newGroups r).1 hr with ⟨n, _, hreq⟩ | hdel
  · rcases (requestFor_eq_some _ n r).1 hreq with ⟨hnone, rfl⟩ | ⟨o, hsome, _, rfl⟩
    · exact (groupsByName_eq_none_iff NodeGroup.Name oldGroups n.Name).1 hnone
    · exact groupsByName_some_mem NodeGroup.Name oldGroups n.Name o hsome
  · obtain ⟨g, hg, _, rfl⟩ := (mem_deleteRequests oldGroups newGroups r).1 hdel
    exact hg

theorem mem_applyPlan_searchPlan (oldGroups newGroups : List NodeGroup)
    (hold : (oldGroups.map NodeGroup.Name).Nodup) (hnew : (newGroups.map NodeGroup.Name).Nodup)
    (g : NodeGroup) :
    g ∈ applyPlan oldGroups (searchPlan oldGroups newGroups) ↔ g ∈ newGroups := by
  rw [mem_applyPlan _ _ (planFits_searchPlan oldGroups newGroups hold hnew)]
  constructor
  · rintro (⟨hg, hfree⟩ | ⟨r, hr, hres⟩)
    · by_cases hin : g.Name ∈ newGroups.map NodeGroup.Name
      · obtain ⟨n, hn, hname⟩ := List.mem_map.1 hin
        have hlook : groupsByName NodeGroup.Name oldGroups n.Name = some g := by
          rw [hname]
          exact groupsByName_of_mem NodeGroup.Name oldGroups hold g hg
        by_cases hc : changedFields g n = []
        · rw [eq_of_changedFields_eq_nil g n hname.symm hc]
          exact hn
        · exfalso
          apply hfree
          have hmem : Request.UPDATE g n (changedFields g n) ∈
              searchPlan oldGroups newGroups :=
            (mem_searchPlan oldGroups newGroups _).2
              (Or.inl ⟨n, hn, (requestFor_eq_some _ n _).2 (Or.inr ⟨g, hlook, hc, rfl⟩)⟩)
          have := List.mem_map_of_mem Request.groupName hmem
          simpa [Request.groupName, hname] using this
      · exfalso
        apply hfree
        have hmem : Request.DELETE g ∈ searchPlan oldGroups newGroups :=
          (mem_searchPlan oldGroups newGroups _).2
            (Or.inr ((mem_deleteRequests oldGroups newGroups _).2 ⟨g, hg, hin, rfl⟩))
        have := List.mem_map_of_mem Request.groupName hmem
        simpa [Request.groupName] using this
    · rcases (mem_searchPlan oldGroups newGroups r).1 hr with ⟨n, hn, hreq⟩ | hdel
      · rcases (requestFor_eq_some _ n r).1 hreq with ⟨_, rfl⟩ | ⟨o, _, _, rfl⟩
        · simp only [Request.result, Option.some.injEq] at hres
          rw [← hres]; exact hn
        · simp only [Request.result, Option.some.injEq] at hres
          rw [← hres]; exact hn
      · obtain ⟨d, _, _, rfl⟩ := (mem_deleteRequests oldGroups newGroups r).1 hdel
        exact Option.noConfusion hres
  · intro hg
    cases hlook : groupsByName NodeGroup.Name oldGroups g.Name with
    | none =>
      right
      exact ⟨.CREATE g, (mem_searchPlan oldGroups newGroups _).2
        (Or.inl ⟨g, hg, (requestFor_eq_some _ g _).2 (Or.inl ⟨hlook, rfl⟩)⟩), rfl⟩
    | some o =>
      obtain ⟨ho, hname⟩ := groupsByName_some_mem NodeGroup.Name oldGroups g.Name o hlook
      by_cases hc : changedFields o g = []
      · left
        have heq := eq_of_changedFields_eq_nil o g hname hc
        subst heq
        refine ⟨ho, ?_⟩
        intro hmem
        obtain ⟨r, hr, hrname⟩ := List.mem_map.1 hmem
        rcases (mem_searchPlan oldGroups newGroups r).1 hr with ⟨n, hn, hreq⟩ | hdel
        · have hn1 : n.Name = o.Name := by
            rw [← requestFor_groupName _ n r hreq]; exact hrname
          have hno : n = o := List.inj_on_of_nodup_map hnew hn hg hn1
          subst hno
          rcases (requestFor_eq_some _ n r).1 hreq with ⟨h1, _⟩ | ⟨o1, h1, h2, _⟩
          · rw [hlook] at h1; exact Option.noConfusion h1
          · rw [hlook] at h1; cases h1; exact h2 hc
        · obtain ⟨d, _, hd, rfl⟩ := (mem_deleteRequests oldGroups newGroups r).1 hdel
          apply hd
          simp only [Request.groupName] at hrname
          rw [hrname]
          exact List.mem_map_of_mem _ hg
      · right
        exact ⟨.UPDATE o g (changedFields o g), (mem_searchPlan oldGroups newGroups _).2
          (Or.inl ⟨g, hg, (requestFor_eq_some _ g _).2 (Or.inr ⟨o, hlook, hc, rfl⟩)⟩), rfl⟩

/-- Applying the plan to the old snapshot gives the new snapshot, up to the
order of the groups. -/
theorem applyPlan_searchPlan_perm (oldGroups newGroups : List NodeGroup)
    (hold : (oldGroups.map NodeGroup.Name).Nodup) (hnew : (newGroups.map NodeGroup.Name).Nodup) :
    (applyPlan oldGroups (searchPlan oldGroups newGroups)).Perm newGroups := by
  have hfits := planFits_searchPlan oldGroups newGroups hold hnew
  have hfin : PlanFits (applyPlan oldGroups (searchPlan oldGroups newGroups)) [] :=
    planFits_applyPlan (searchPlan oldGroups newGroups) [] oldGroups (by simpa using hfits)
  rw [List.perm_ext_iff_of_nodup (List.Nodup.of_map _ hfin.1) (List.Nodup.of_map _ hnew)]
  exact mem_applyPlan_searchPlan oldGroups newGroups hold hnew

/-- C3: with unique names in both snapshots, applying the requests logged by
a pass in which every operation succeeds to the old snapshot (CREATE adds,
UPDATE replaces, DELETE removes) gives a collection with exactly the groups
of the new snapshot: the same names with the same field values. -/
theorem updateOpenSearchNodeGroupsParams_plan_correct {σ : Type}
    (exec : Executor σ NodeGroup) (hok : ∀ st r, (exec st r).2 = none)
    (oldGroups newGroups : List NodeGroup) (st : σ)
    (hold : (oldGroups.map NodeGroup.Name).Nodup) (hnew : (newGroups.map NodeGroup.Name).Nodup) :
    (applyPlan oldGroups
      (updateOpenSearchNodeGroupsParams exec oldGroups newGroups ⟨st, []⟩).1.issued).Perm
        newGroups := by
  rw [issued_of_success exec hok]
  exact applyPlan_searchPlan_perm oldGroups newGroups hold hnew

theorem updateOpenSearchNodeGroupsParams_plan_correct_witness :
    (applyPlan sampleOld
      (updateOpenSearchNodeGroupsParams acceptAll sampleOld sampleNew ⟨(), []⟩).1.issued).Perm
        sampleNew :=
  updateOpenSearchNodeGroupsParams_plan_correct acceptAll (fun _ _ => rfl) sampleOld sampleNew ()
    (by decide) (by decide)

/-! ## No-op stability -/

theorem searchPlan_self (groups : List NodeGroup) (hnd : (groups.map NodeGroup.Name).Nodup) :
    searchPlan groups groups = [] := by
  apply List.eq_nil_iff_forall_not_mem.2
  intro r hr
  rcases (mem_searchPlan groups groups r).1 hr with ⟨n, hn, hreq⟩ | hdel
  · have hlook := groupsByName_of_mem NodeGroup.Name groups hnd n hn
    rcases (requestFor_eq_some _ n r).1 hreq with ⟨h1, _⟩ | ⟨o, h1, h2, _⟩
    · rw [hlook] at h1; exact Option.noConfusion h1
    · rw [hlook] at h1; cases h1; exact h2 (changedFields_self n)
  · obtain ⟨g, hg, hnot, _⟩ := (mem_deleteRequests groups groups r).1 hdel
    exact hnot (List.mem_map_of_mem _ hg)

theorem dashboardsChangedFields_self (g : DashboardsNodeGroup) :
    dashboardsChangedFields g g = [] := by
  simp [dashboardsChangedFields]

theorem dashboardsCreateRequests_self (groups : List DashboardsNodeGroup) :
    dashboardsCreateRequests groups groups = [] := by
  unfold dashboardsCreateRequests
  rw [List.map_eq_nil_iff, List.filter_eq_nil_iff]
  intro g hg
  rw [Option.isNone_iff_eq_none, groupsByName_eq_none_iff]
  exact fun h => h (List.mem_map_of_mem _ hg)

theorem dashboardsDeleteRequests_self (groups : List DashboardsNodeGroup) :
    dashboardsDeleteRequests groups groups = [] := by
  unfold dashboardsDeleteRequests
  rw [List.map_eq_nil_iff, List.filter_eq_nil_iff]
  intro g hg
  rw [Option.isNone_iff_eq_none, groupsByName_eq_none_iff]
  exact fun h => h (List.mem_map_of_mem _ hg)

theorem dashboardsUpdateRequests_self (groups : List DashboardsNodeGroup)
    (hnd : (groups.map DashboardsNodeGroup.Name).Nodup) :
    dashboardsUpdateRequests groups groups = [] := by
  unfold dashboardsUpdateRequests
  rw [List.filterMap_eq_nil_iff]
  intro g hg
  rw [groupsByName_of_mem DashboardsNodeGroup.Name groups hnd g hg]
  simp [createUpdateDashboardsNodeGroupRequest, Request.Paths, dashboardsChangedFields_self]

/-- C4: when the old and the new snapshot are the same snapshot with unique
names, neither reconciler hands a request to the executor, whatever the
executor would do: both logs stay empty and both passes return nil. -/
theorem reconcilers_noop_of_equal_snapshots {σ τ : Type} (exec : Executor σ NodeGroup)
    (execDashboards : Executor τ DashboardsNodeGroup) (st : σ) (stDashboards : τ)
    (groups : List NodeGroup) (dashboards : List DashboardsNodeGroup)
    (hgroups : (groups.map NodeGroup.Name).Nodup)
    (hdashboards : (dashboards.map DashboardsNodeGroup.Name).Nodup) :
    (updateOpenSearchNodeGroupsParams exec groups groups ⟨st, []⟩).1.issued = [] ∧
      (updateOpenSearchNodeGroupsParams exec groups groups ⟨st, []⟩).2 = none ∧
      (updateDashboardsNodeGroupsParams execDashboards dashboards dashboards
        ⟨stDashboards, []⟩).1.issued = [] ∧
      (updateDashboardsNodeGroupsParams execDashboards dashboards dashboards
        ⟨stDashboards, []⟩).2 = none := by
  refine ⟨?_, ?_, ?_, ?_⟩
  · rw [updateOpenSearchNodeGroupsParams_eq_forEachRequest, searchPlan_self groups hgroups]
    rfl
  · rw [updateOpenSearchNodeGroupsParams_eq_forEachRequest, searchPlan_self groups hgroups]
    rfl
  · unfold updateDashboardsNodeGroupsParams
    rw [dashboardsCreateRequests_self, dashboardsUpdateRequests_self dashboards hdashboards,
      dashboardsDeleteRequests_self]
    rfl
  · unfold updateDashboardsNodeGroupsParams
    rw [dashboardsCreateRequests_self, dashboardsUpdateRequests_self dashboards hdashboards,
      dashboardsDeleteRequests_self]
    rfl

theorem reconcilers_noop_of_equal_snapshots_witness :
    (updateOpenSearchNodeGroupsParams acceptAll sampleNew sampleNew ⟨(), []⟩).1.issued = [] ∧
      (updateOpenSearchNodeGroupsParams acceptAll sampleNew sampleNew ⟨(), []⟩).2 = none ∧
      (updateDashboardsNodeGroupsParams acceptAll
        [sampleDashboards "dashboards" 2, sampleDashboards "kibana" 1]
        [sampleDashboards "dashboards" 2, sampleDashboards "kibana" 1] ⟨(), []⟩).1.issued = [] ∧
      (updateDashboardsNodeGroupsParams acceptAll
        [sampleDashboards "dashboards" 2, sampleDashboards "kibana" 1]
        [sampleDashboards "dashboards" 2, sampleDashboards "kibana" 1] ⟨(), []⟩).2 = none :=
  reconcilers_noop_of_equal_snapshots acceptAll acceptAll () () sampleNew
    [sampleDashboards "dashboards" 2, sampleDashboards "kibana" 1] (by decide) (by decide)

/-! ## Manager capacity along the plan -/

theorem hasManagerRole_of_dedicated (g : NodeGroup) (h : dedicatedManagersGroup g = true) :
    hasManagerRole g = true := by
  simp only [dedicatedManagersGroup, decide_eq_true_eq] at h
  simp [hasManagerRole, h]

theorem managerHostsOf_le (g : NodeGroup) : managerHostsOf g ≤ g.HostsCount := by
  unfold managerHostsOf
  split
  · exact Nat.le_refl _
  · exact Nat.zero_le _

theorem raises_of_managersToIncrease (o n : NodeGroup)
    (h : specBucket o n = .managersToIncrease) : managerHostsOf o ≤ managerHostsOf n := by
  unfold specBucket at h
  split_ifs at h with h1
  have hm := hasManagerRole_of_dedicated n h1.1
  have ho := managerHostsOf_le o
  simp only [managerHostsOf, hm, if_true] at ho ⊢
  omega

theorem raises_of_otherGroupsToUpdate (o n : NodeGroup)
    (h : specBucket o n = .otherGroupsToUpdate) : managerHostsOf o ≤ managerHostsOf n := by
  unfold specBucket at h
  split_ifs at h with h1 h2 h3
  have ho := managerHostsOf_le o
  cases hd : dedicatedManagersGroup n
  · simp only [hd, true_and, not_or, not_and, Bool.not_eq_true, Nat.not_lt,
      Bool.not_eq_false] at h3
    cases hn : hasManagerRole n
    · have hno : hasManagerRole o = false := by
        cases hoo : hasManagerRole o
        · rfl
        · have := h3.2 hoo
          rw [hn] at this
          exact Bool.noConfusion this
      simp [managerHostsOf, hn, hno]
    · have := h3.1 hn
      simp only [managerHostsOf, hn, if_true] at ho ⊢
      omega
  · have hm := hasManagerRole_of_dedicated n hd
    simp only [hd, true_and, Nat.not_lt] at h1 h2
    simp only [managerHostsOf, hm, if_true] at ho ⊢
    omega

theorem lowers_of_managersToDecrease (o n : NodeGroup)
    (h : specBucket o n = .managersToDecrease) (ho : hasManagerRole o = true) :
    managerHostsOf n ≤ managerHostsOf o := by
  unfold specBucket at h
  split_ifs at h with h1 h2
  have hn := managerHostsOf_le n
  simp only [managerHostsOf, ho, if_true] at hn ⊢
  omega

/-- The creations and the updates of `managersToIncrease` and
`otherGroupsToUpdate` never lower the manager capacity, and the deletions
never raise it: only the updates of `dataManagersToDecrease` and
`managersToDecrease` can go either way. -/
theorem capacity_direction_of_stage (oldGroups newGroups : List NodeGroup)
    (r : Request NodeGroup) :
    (r ∈ (groupsToCreate oldGroups newGroups).map createAddOpenSearchNodeGroupRequest →
      r.lowersCapacity = false) ∧
    (r ∈ (updateBuckets oldGroups newGroups).managersToIncrease → r.lowersCapacity = false) ∧
    (r ∈ (updateBuckets oldGroups newGroups).otherGroupsToUpdate → r.lowersCapacity = false) ∧
    (r ∈ deleteRequests oldGroups newGroups → r.raisesCapacity = false) := by
  refine ⟨?_, ?_, ?_, ?_⟩
  · intro h
    obtain ⟨g, _, rfl⟩ := List.mem_map.1 h
    rfl
  · intro h
    obtain ⟨o, n, _, _, _, hb, rfl⟩ :=
      (mem_updateBuckets_get oldGroups newGroups .managersToIncrease r).1 h
    have := raises_of_managersToIncrease o n hb
    simp only [Request.lowersCapacity, decide_eq_false_iff_not]
    omega
  · intro h
    obtain ⟨o, n, _, _, _, hb, rfl⟩ :=
      (mem_updateBuckets_get oldGroups newGroups .otherGroupsToUpdate r).1 h
    have := raises_of_otherGroupsToUpdate o n hb
    simp only [Request.lowersCapacity, decide_eq_false_iff_not]
    omega
  · intro h
    obtain ⟨g, _, _, rfl⟩ := (mem_deleteRequests oldGroups newGroups r).1 h
    rfl

theorem noDipShape_of_split (up down : List (Request NodeGroup))
    (hup : ∀ r ∈ up, r.lowersCapacity = false) (hdown : ∀ r ∈ down, r.raisesCapacity = false) :
    NoDipShape (up ++ down) := by
  unfold NoDipShape
  rw [List.pairwise_append]
  refine ⟨List.pairwise_of_forall_mem_list ?_, List.pairwise_of_forall_mem_list ?_, ?_⟩
  · intro a ha b _ h
    rw [hup a ha] at h
    exact Bool.noConfusion h
  · intro a _ b hb _
    exact hdown b hb
  · intro a _ b hb _
    exact hdown b hb

/-- The shape holds in particular when no update of `managersToDecrease`
raises the manager capacity and either no update of `dataManagersToDecrease`
lowers it, or no update of `dataManagersToDecrease` and of
`otherGroupsToUpdate` raises it. -/
theorem noDipShape_searchPlan_of_stages (oldGroups newGroups : List NodeGroup)
    (hdec : ∀ r ∈ (updateBuckets oldGroups newGroups).managersToDecrease,
      r.raisesCapacity = false)
    (hmixed : (∀ r ∈ (updateBuckets oldGroups newGroups).dataManagersToDecrease,
        r.lowersCapacity = false) ∨
      (∀ r ∈ (updateBuckets oldGroups newGroups).dataManagersToDecrease ++
        (updateBuckets oldGroups newGroups).otherGroupsToUpdate, r.raisesCapacity = false)) :
    NoDipShape (searchPlan oldGroups newGroups) := by
  have hdir := capacity_direction_of_stage oldGroups newGroups
  rcases hmixed with hm | hm
  · have hsplit : searchPlan oldGroups newGroups =
        ((groupsToCreate oldGroups newGroups).map createAddOpenSearchNodeGroupRequest ++
          ((updateBuckets oldGroups newGroups).managersToIncrease ++
            ((updateBuckets oldGroups newGroups).dataManagersToDecrease ++
              (updateBuckets oldGroups newGroups).otherGroupsToUpdate))) ++
        (deleteRequests oldGroups newGroups ++
          (updateBuckets oldGroups newGroups).managersToDecrease) := by
      unfold searchPlan
      simp
    rw [hsplit]
    apply noDipShape_of_split
    · intro r hr
      simp only [List.mem_append] at hr
      rcases hr with h | h | h | h
      · exact (hdir r).1 h
      · exact (hdir r).2.1 h
      · exact hm r h
      · exact (hdir r).2.2.1 h
    · intro r hr
      simp only [List.mem_append] at hr
      rcases hr with h | h
      · exact (hdir r).2.2.2 h
      · exact hdec r h
  · have hsplit : searchPlan oldGroups newGroups =
        ((groupsToCreate oldGroups newGroups).map createAddOpenSearchNodeGroupRequest ++
          (updateBuckets oldGroups newGroups).managersToIncrease) ++
        (((updateBuckets oldGroups newGroups).dataManagersToDecrease ++
            (updateBuckets oldGroups newGroups).otherGroupsToUpdate) ++
          (deleteRequests oldGroups newGroups ++
            (updateBuckets oldGroups newGroups).managersToDecrease)) := by
      unfold searchPlan
      simp
    rw [hsplit]
    apply noDipShape_of_split
    · intro r hr
      simp only [List.mem_append] at hr
      rcases hr with h | h
      · exact (hdir r).1 h
      · exact (hdir r).2.1 h
    · intro r hr
      rcases List.mem_append.1 hr with h | h
      · exact hm r h
      · rcases List.mem_append.1 h with h1 | h1
        · exact (hdir r).2.2.2 h1
        · exact hdec r h1

/-- The second way the manager capacity can dip: a data group that becomes a
smaller dedicated-manager group is routed to `managersToDecrease`, after the
deletion of the only manager group. -/
theorem role_gain_lowers_manager_capacity :
    (updateOpenSearchNodeGroupsParams acceptAll gainOld gainNew ⟨(), []⟩).1.issued =
      [.DELETE (sampleGroup "groupB" {GroupRole.MANAGER} 3),
       .UPDATE (sampleGroup "groupA" {GroupRole.DATA} 5)
          (sampleGroup "groupA" {GroupRole.MANAGER} 3) ["hosts_count", "roles"]] ∧
    managerHosts gainOld = 3 ∧ managerHosts gainNew = 3 ∧
    managerHosts (applyPlan gainOld
      ((updateOpenSearchNodeGroupsParams acceptAll gainOld gainNew ⟨(), []⟩).1.issued.take 1))
      = 0 := by
  decide

theorem waitLoop_retried (caller : String) (remote : Nat → Attempt) (retryCount k : Nat)
    (err : Option GoError) (log : List Event) (h : (remote k).retried = true) :
    waitLoop caller remote (retryCount + 1) k err log =
      waitLoop caller remote retryCount (k + 1) err (log ++ (remote k).retriedEvents) := by
  simp only [Attempt.retried, Bool.and_eq_true, Bool.or_eq_true, Option.isNone_iff_eq_none] at h
  obtain ⟨hreq, hretry⟩ := h
  by_cases hw : shouldRetry (remote k).failedAfterWait (remote k).wait = true
  · simp [waitLoop, hreq, hw, Attempt.retriedEvents]
  · have hr : shouldRetry (remote k).failedAfterResponse (remote k).response = true := by
      rcases hretry with h1 | h1
      · exact absurd h1 hw
      · exact h1
    simp [waitLoop, hreq, hw, hr, Attempt.retriedEvents]

theorem waitLoop_retried_many (caller : String) (remote : Nat → Attempt) (retryCount : Nat)
    (err : Option GoError) :
    ∀ (m k : Nat) (log : List Event), (∀ i, i < m → (remote (k + i)).retried = true) →
      waitLoop caller remote (retryCount + m) k err log =
        waitLoop caller remote retryCount (k + m) err (log ++ retriedLog remote k m) := by
  intro m
  induction m with
  | zero => intro k log _; simp [retriedLog]
  | succ m ih =>
    intro k log h
    have h0 : (remote k).retried = true := by simpa using h 0 (Nat.succ_pos m)
    have hrest : ∀ i, i < m → (remote (k + 1 + i)).retried = true := by
      intro i hi
      have := h (i + 1) (Nat.succ_lt_succ hi)
      rwa [show k + (i + 1) = k + 1 + i by omega] at this
    rw [show retryCount + (m + 1) = (retryCount + m) + 1 by omega,
      waitLoop_retried caller remote _ k err log h0, ih (k + 1) _ hrest]
    simp [retriedLog, Nat.add_assoc, Nat.add_comm 1 m]

theorem waitLoop_request_error (caller : String) (remote : Nat → Attempt) (retryCount k : Nat)
    (err : Option GoError) (log : List Event) (e : GoError) (h : (remote k).request = some e) :
    waitLoop caller remote (retryCount + 1) k err log =
      ⟨some (errorWhileRequesting caller e), log ++ [Event.request]⟩ := by
  simp [waitLoop, h]

/-- The error variable returned after the loop is the function-level one: when
no request fails the loop gives back the `err` it was started with. -/
theorem waitLoop_err_of_requests_ok (caller : String) (remote : Nat → Attempt)
    (hreq : ∀ k, (remote k).request = none) :
    ∀ (retryCount k : Nat) (err : Option GoError) (log : List Event),
      (waitLoop caller remote retryCount k err log).err = err := by
  intro retryCount
  induction retryCount with
  | zero => intro k err log; simp [waitLoop]
  | succ n ih =>
    intro k err log
    simp only [waitLoop, hreq k]
    split
    · exact ih _ _ _
    · split
      · exact ih _ _ _
      · rfl

/-- C10: when the API request of a cycle fails with `e` (cycle `k` of the at
most five, every earlier cycle having been retried), `waitOperationWithRetry`
returns at once the error that wraps `e` and whose text names the caller
label; the log ends with that request: no wait on an operation and no further
cycle follow it. -/
theorem waitOperationWithRetry_request_error (caller : String) (remote : Nat → Attempt)
    (k : Nat) (e : GoError) (hk : k < yandexMDBOpenSearchOperationsRetryCount)
    (hprev : ∀ i, i < k → (remote i).retried = true)
    (hreq : (remote k).request = some e) :
    ∃ err, (waitOperationWithRetry caller remote).err = some err ∧
      err.Unwrap = some e ∧
      err.Error = "error while requesting API for " ++ caller ++ ": " ++ e.Error ∧
      (waitOperationWithRetry caller remote).events =
        retriedLog remote 0 k ++ [Event.request] := by
  have key : waitOperationWithRetry caller remote =
      ⟨some (errorWhileRequesting caller e), retriedLog remote 0 k ++ [Event.request]⟩ := by
    obtain ⟨r, hr⟩ : ∃ r, yandexMDBOpenSearchOperationsRetryCount = (r + 1) + k :=
      ⟨yandexMDBOpenSearchOperationsRetryCount - 1 - k, by omega⟩
    have hprev0 : ∀ i, i < k → (remote (0 + i)).retried = true := by
      intro i hi; simpa using hprev i hi
    unfold waitOperationWithRetry
    rw [hr, waitLoop_retried_many caller remote (r + 1) none k 0 [] hprev0,
      waitLoop_request_error caller remote r (0 + k) none _ e (by simpa using hreq)]
    simp
  exact ⟨errorWhileRequesting caller e, by rw [key], rfl, rfl, by rw [key]⟩

theorem waitOperationWithRetry_request_error_witness :
    ∃ err, (waitOperationWithRetry "Update NodeGroup" remoteThirdRequestFails).err = some err ∧
      err.Unwrap = some (.plain "connection refused") ∧
      err.Error = "error while requesting API for " ++ "Update NodeGroup" ++ ": " ++
        (GoError.plain "connection refused").Error ∧
      (waitOperationWithRetry "Update NodeGroup" remoteThirdRequestFails).events =
        retriedLog remoteThirdRequestFails 0 2 ++ [Event.request] :=
  waitOperationWithRetry_request_error "Update NodeGroup" remoteThirdRequestFails 2
    (.plain "connection refused") (by decide) (by decide) (by decide)

/-- C8: on a non-transient error of `Wait` and `Response` (gRPC code 7, for
which `shouldRetry` is false) `waitOperationWithRetry` makes no further cycle,
yet the error it returns is nil: the error of the operation is lost. -/
theorem waitOperationWithRetry_drops_permanent_error :
    shouldRetry true (some (.status 7 "permission denied")) = false ∧
    (remotePermissionDenied 0).wait = some (.status 7 "permission denied") ∧
    (remotePermissionDenied 0).response = some (.status 7 "permission denied") ∧
    waitOperationWithRetry "Update NodeGroup" remotePermissionDenied =
      ⟨none, [Event.request, Event.wait, Event.response]⟩ := by
  decide

/-- C9: when all five cycles end in a transient failure (gRPC code 13 from
`Wait`), `waitOperationWithRetry` makes five requests and then returns nil
instead of the error of the fifth cycle. -/
theorem waitOperationWithRetry_drops_last_error :
    (∀ k, k < 5 → (remoteAlwaysInternal k).retried = true) ∧
    (waitOperationWithRetry "Update NodeGroup" remoteAlwaysInternal).err = none ∧
    ((waitOperationWithRetry "Update NodeGroup" remoteAlwaysInternal).events.filter
      (fun ev => decide (ev = Event.request))).length = 5 := by
  decide

/-! ## The dashboard-tier sequence -/

/-- The dashboard-tier reconciler is the sequential run of its plan. -/
theorem updateDashboardsNodeGroupsParams_eq_forEachRequest {σ : Type}
    (exec : Executor σ DashboardsNodeGroup) (oldGroups newGroups : List DashboardsNodeGroup)
    (s : Session σ DashboardsNodeGroup) :
    updateDashboardsNodeGroupsParams exec oldGroups newGroups s =
      forEachRequest exec (dashboardsPlan oldGroups newGroups) s := by
  unfold updateDashboardsNodeGroupsParams dashboardsPlan
  rcases h1 : forEachRequest exec (dashboardsCreateRequests oldGroups newGroups) s
    with ⟨s1, _ | e⟩
  swap
  · rw [forEachRequest_append_error exec _ _ s s1 e h1]
  rw [forEachRequest_append_ok exec _ _ s s1 h1]
  simp only
  rcases h2 : forEachRequest exec (dashboardsUpdateRequests oldGroups newGroups) s1
    with ⟨s2, _ | e⟩
  swap
  · rw [forEachRequest_append_error exec _ _ s1 s2 e h2]
  rw [forEachRequest_append_ok exec _ _ s1 s2 h2]
  simp only
  rcases h3 : forEachRequest exec (dashboardsDeleteRequests oldGroups newGroups) s2
    with ⟨s3, _ | e⟩ <;> rfl

theorem groupsByName_eq_find?_of_nodup {γ : Type} (name : γ → String) (gs : List γ)
    (hnd : (gs.map name).Nodup) (k : String) :
    groupsByName name gs k = gs.find? (fun o => decide (name o = k)) := by
  cases hf : gs.find? (fun o => decide (name o = k)) with
  | none =>
    rw [groupsByName_eq_none_iff]
    intro hk
    obtain ⟨g, hg, hname⟩ := List.mem_map.1 hk
    have := List.find?_eq_none.1 hf g hg
    simp [hname] at this
  | some g =>
    have hmem : g ∈ gs := List.mem_of_find?_eq_some hf
    have hname : name g = k := by simpa using List.find?_some hf
    rw [← hname]
    exact groupsByName_of_mem name gs hnd g hmem

theorem filter_name_not_mem_eq {γ : Type} (name : γ → String) (l other : List γ) :
    l.filter (fun g => decide (name g ∉ other.map name)) =
      l.filter (fun g => (groupsByName name other (name g)).isNone) := by
  congr 1
  funext g
  rw [Bool.eq_iff_iff]
  simp only [decide_eq_true_eq, Option.isNone_iff_eq_none, groupsByName_eq_none_iff]

/-- With unique names in the old snapshot the dashboard-tier plan is the
sequence of the specification. -/
theorem dashboardsPlan_eq_expected (oldGroups newGroups : List DashboardsNodeGroup)
    (hold : (oldGroups.map DashboardsNodeGroup.Name).Nodup) :
    dashboardsPlan oldGroups newGroups = dashboardsExpectedSequence oldGroups newGroups := by
  unfold dashboardsPlan dashboardsExpectedSequence
  congr 1
  · unfold dashboardsCreateRequests
    rw [filter_name_not_mem_eq DashboardsNodeGroup.Name newGroups oldGroups]
    rfl
  · congr 1
    · unfold dashboardsUpdateRequests
      congr 1
      funext n
      rw [groupsByName_eq_find?_of_nodup DashboardsNodeGroup.Name oldGroups hold]
      cases oldGroups.find? (fun o => decide (o.Name = n.Name)) with
      | none => rfl
      | some o => simp [createUpdateDashboardsNodeGroupRequest, Request.Paths]
    · unfold dashboardsDeleteRequests
      rw [filter_name_not_mem_eq DashboardsNodeGroup.Name oldGroups newGroups]
      rfl

/-- C11: with unique names (those of the old snapshot are what the proof
needs), the log of a dashboard-tier pass in which every
operation succeeds is `dashboardsExpectedSequence`: the CREATEs of the groups
whose name is new, in the order of `new`, then the UPDATEs of the groups in
both snapshots with a non-empty update mask, in the order of `new`, then the
DELETEs of the groups whose name is gone, in the order of `old`. -/
theorem updateDashboardsNodeGroupsParams_sequence {σ : Type}
    (exec : Executor σ DashboardsNodeGroup) (hok : ∀ st r, (exec st r).2 = none)
    (oldGroups newGroups : List DashboardsNodeGroup) (st : σ)
    (hold : (oldGroups.map DashboardsNodeGroup.Name).Nodup) :
    (updateDashboardsNodeGroupsParams exec oldGroups newGroups ⟨st, []⟩).1.issued =
        dashboardsExpectedSequence oldGroups newGroups ∧
      (updateDashboardsNodeGroupsParams exec oldGroups newGroups ⟨st, []⟩).2 = none := by
  rw [updateDashboardsNodeGroupsParams_eq_forEachRequest,
    ← dashboardsPlan_eq_expected oldGroups newGroups hold]
  have h := forEachRequest_of_success exec hok (dashboardsPlan oldGroups newGroups) ⟨st, []⟩
  exact ⟨by simpa using h.1, h.2⟩

/-- On the sample snapshots: two creations in the order of the new snapshot,
two updates in the order of the new snapshot, one deletion. -/
theorem updateDashboardsNodeGroupsParams_sequence_witness :
    dashboardsExpectedSequence dashboardsOld dashboardsNew =
      [.CREATE (sampleDashboards "ui" 1), .CREATE (sampleDashboards "reports" 1),
       .UPDATE (sampleDashboards "kibana" 1) (sampleDashboards "kibana" 2) ["hosts_count"],
       .UPDATE (sampleDashboards "dashboards" 2) (sampleDashboards "dashboards" 3)
         ["hosts_count"],
       .DELETE (sampleDashboards "legacy" 1)] ∧
    (updateDashboardsNodeGroupsParams acceptAll dashboardsOld dashboardsNew ⟨(), []⟩).1.issued =
        dashboardsExpectedSequence dashboardsOld dashboardsNew ∧
      (updateDashboardsNodeGroupsParams acceptAll dashboardsOld dashboardsNew ⟨(), []⟩).2 =
        none :=
  ⟨by decide,
    updateDashboardsNodeGroupsParams_sequence acceptAll (fun _ _ => rfl) dashboardsOld
      dashboardsNew () (by decide)⟩

/-! ## Failure of the executor -/

theorem answerAt_cons_zero {σ γ : Type} (exec : Executor σ γ) (st : σ) (r : Request γ)
    (rs : List (Request γ)) : answerAt exec st (r :: rs) 0 = (exec st r).2 := by
  simp [answerAt, stateAfter]

theorem answerAt_cons_succ {σ γ : Type} (exec : Executor σ γ) (st : σ) (r : Request γ)
    (rs : List (Request γ)) (k : Nat) :
    answerAt exec st (r :: rs) (k + 1) = answerAt exec (exec st r).1 rs k := by
  simp [answerAt, stateAfter]

/-- A loop whose requests are all accepted runs to its end. -/
theorem forEachRequest_of_answers_none {σ γ : Type} (exec : Executor σ γ) :
    ∀ (rs : List (Request γ)) (s : Session σ γ),
      (∀ i, i < rs.length → answerAt exec s.remote rs i = none) →
      forEachRequest exec rs s = (⟨stateAfter exec s.remote rs, s.issued ++ rs⟩, none) := by
  intro rs
  induction rs with
  | nil => intro s _; simp [forEachRequest, stateAfter]
  | cons r rs ih =>
    intro s h
    have h0 : (exec s.remote r).2 = none := by
      have := h 0 (Nat.succ_pos _)
      rwa [answerAt_cons_zero] at this
    have hrest : ∀ i, i < rs.length → answerAt exec (exec s.remote r).1 rs i = none := by
      intro i hi
      have := h (i + 1) (Nat.succ_lt_succ hi)
      rwa [answerAt_cons_succ] at this
    have hi : issue exec s r = (⟨(exec s.remote r).1, s.issued ++ [r]⟩, none) := by
      simp [issue, h0]
    simp only [forEachRequest, hi]
    rw [ih ⟨(exec s.remote r).1, s.issued ++ [r]⟩ hrest]
    simp [stateAfter]

/-- A loop stops at the first request the executor refuses. -/
theorem forEachRequest_of_answer_some {σ γ : Type} (exec : Executor σ γ) :
    ∀ (rs : List (Request γ)) (s : Session σ γ) (k : Nat) (e : GoError),
      (∀ i, i < k → answerAt exec s.remote rs i = none) →
      answerAt exec s.remote rs k = some e →
      forEachRequest exec rs s =
        (⟨stateAfter exec s.remote (rs.take (k + 1)), s.issued ++ rs.take (k + 1)⟩, some e) := by
  intro rs
  induction rs with
  | nil => intro s k e _ h; simp [answerAt] at h
  | cons r rs ih =>
    intro s k e hprev hk
    cases k with
    | zero =>
      rw [answerAt_cons_zero] at hk
      have hi : issue exec s r = (⟨(exec s.remote r).1, s.issued ++ [r]⟩, some e) := by
        simp [issue, hk]
      simp only [forEachRequest, hi]
      simp [stateAfter]
    | succ k =>
      have h0 : (exec s.remote r).2 = none := by
        have := hprev 0 (Nat.succ_pos _)
        rwa [answerAt_cons_zero] at this
      have hrest : ∀ i, i < k → answerAt exec (exec s.remote r).1 rs i = none := by
        intro i hi
        have := hprev (i + 1) (Nat.succ_lt_succ hi)
        rwa [answerAt_cons_succ] at this
      rw [answerAt_cons_succ] at hk
      have hi : issue exec s r = (⟨(exec s.remote r).1, s.issued ++ [r]⟩, none) := by
        simp [issue, h0]
      simp only [forEachRequest, hi]
      rw [ih ⟨(exec s.remote r).1, s.issued ++ [r]⟩ k e hrest hk]
      simp [stateAfter]

/-- C13: for any executor, when its answer to the request at place `k` of
the plan (from 0) is the first error, the pass hands it exactly the requests
at places `0..k`, in plan order, each in the remote state left by the one
before, and returns that error; when no request is refused the pass hands it
the whole plan and returns nil. -/
theorem updateOpenSearchNodeGroupsParams_stops_at_first_error {σ : Type}
    (exec : Executor σ NodeGroup) (oldGroups newGroups : List NodeGroup) (st : σ) :
    (∀ (k : Nat) (e : GoError),
      (∀ i, i < k → answerAt exec st (searchPlan oldGroups newGroups) i = none) →
      answerAt exec st (searchPlan oldGroups newGroups) k = some e →
      updateOpenSearchNodeGroupsParams exec oldGroups newGroups ⟨st, []⟩ =
        (⟨stateAfter exec st ((searchPlan oldGroups newGroups).take (k + 1)),
          (searchPlan oldGroups newGroups).take (k + 1)⟩, some e)) ∧
    ((∀ i, i < (searchPlan oldGroups newGroups).length →
        answerAt exec st (searchPlan oldGroups newGroups) i = none) →
      updateOpenSearchNodeGroupsParams exec oldGroups newGroups ⟨st, []⟩ =
        (⟨stateAfter exec st (searchPlan oldGroups newGroups),
          searchPlan oldGroups newGroups⟩, none)) := by
  constructor
  · intro k e hprev hk
    rw [updateOpenSearchNodeGroupsParams_eq_forEachRequest,
      forEachRequest_of_answer_some exec _ ⟨st, []⟩ k e hprev hk]
    simp
  · intro h
    rw [updateOpenSearchNodeGroupsParams_eq_forEachRequest,
      forEachRequest_of_answers_none exec _ ⟨st, []⟩ h]
    simp

/-- On the sample snapshots the fifth request of the plan updates `hot`; an
executor that refuses it is handed five of the seven requests. -/
theorem updateOpenSearchNodeGroupsParams_stops_at_first_error_witness :
    (searchPlan sampleOld sampleNew).length = 7 ∧
    answerAt rejectHot 0 (searchPlan sampleOld sampleNew) 4 = some (.plain "quota exceeded") ∧
    updateOpenSearchNodeGroupsParams rejectHot sampleOld sampleNew ⟨0, []⟩ =
      (⟨stateAfter rejectHot 0 ((searchPlan sampleOld sampleNew).take (4 + 1)),
        (searchPlan sampleOld sampleNew).take (4 + 1)⟩, some (.plain "quota exceeded")) :=
  ⟨by decide, by decide,
    (updateOpenSearchNodeGroupsParams_stops_at_first_error rejectHot sampleOld sampleNew 0).1 4
      (.plain "quota exceeded") (by decide) (by decide)⟩

/-! ## The creation sequence -/

theorem filter_isCreate_map_create (gs : List NodeGroup) :
    (gs.map createAddOpenSearchNodeGroupRequest).filter Request.isCreate =
      gs.map createAddOpenSearchNodeGroupRequest := by
  rw [List.filter_eq_self]
  intro r hr
  obtain ⟨g, _, rfl⟩ := List.mem_map.1 hr
  rfl

theorem filter_isCreate_updateBuckets (oldGroups newGroups : List NodeGroup) (bk : Bucket) :
    ((updateBuckets oldGroups newGroups).get bk).filter Request.isCreate = [] := by
  rw [List.filter_eq_nil_iff]
  intro r hr
  obtain ⟨o, n, _, _, _, _, rfl⟩ := (mem_updateBuckets_get oldGroups newGroups bk r).1 hr
  simp [Request.isCreate]

theorem filter_isCreate_deleteRequests (oldGroups newGroups : List NodeGroup) :
    (deleteRequests oldGroups newGroups).filter Request.isCreate = [] := by
  rw [List.filter_eq_nil_iff]
  intro r hr
  obtain ⟨g, _, _, rfl⟩ := (mem_deleteRequests oldGroups newGroups r).1 hr
  simp [Request.isCreate]

/-- The creations of the plan are those of `groupsToCreate`, in its order. -/
theorem filter_isCreate_searchPlan (oldGroups newGroups : List NodeGroup) :
    (searchPlan oldGroups newGroups).filter Request.isCreate =
      (groupsToCreate oldGroups newGroups).map createAddOpenSearchNodeGroupRequest := by
  have hI := filter_isCreate_updateBuckets oldGroups newGroups .managersToIncrease
  have hD := filter_isCreate_updateBuckets oldGroups newGroups .dataManagersToDecrease
  have hO := filter_isCreate_updateBuckets oldGroups newGroups .otherGroupsToUpdate
  have hM := filter_isCreate_updateBuckets oldGroups newGroups .managersToDecrease
  simp only [Buckets.get] at hI hD hO hM
  unfold searchPlan
  simp only [List.filter_append, filter_isCreate_map_create, hI, hD, hO, hM,
    filter_isCreate_deleteRequests, List.append_nil]

/-- C15: the CREATE requests logged by a pass in which every operation
succeeds are the creations of the dedicated-manager candidates in the
reverse of their order in the new snapshot, followed by the creations of the
other candidates in their order in the new snapshot; so the dedicated-manager
candidate listed last is the first request of the pass. -/
theorem updateOpenSearchNodeGroupsParams_creation_sequence {σ : Type}
    (exec : Executor σ NodeGroup) (hok : ∀ st r, (exec st r).2 = none)
    (oldGroups newGroups : List NodeGroup) (st : σ) :
    ((updateOpenSearchNodeGroupsParams exec oldGroups newGroups ⟨st, []⟩).1.issued.filter
        Request.isCreate =
      ((((newGroups.filter
            (fun g => decide (g.Name ∉ oldGroups.map NodeGroup.Name))).filter
            (fun g => dedicatedManagersGroup g)).reverse ++
          (newGroups.filter
            (fun g => decide (g.Name ∉ oldGroups.map NodeGroup.Name))).filter
            (fun g => !dedicatedManagersGroup g)).map Request.CREATE)) ∧
    (∀ g, ((newGroups.filter
          (fun g => decide (g.Name ∉ oldGroups.map NodeGroup.Name))).filter
          (fun g => dedicatedManagersGroup g)).getLast? = some g →
      (updateOpenSearchNodeGroupsParams exec oldGroups newGroups ⟨st, []⟩).1.issued[0]? =
        some (.CREATE g)) := by
  rw [issued_of_success exec hok]
  have hcand : newGroups.filter (fun g => decide (g.Name ∉ oldGroups.map NodeGroup.Name)) =
      creationCandidates oldGroups newGroups :=
    filter_name_not_mem_eq NodeGroup.Name newGroups oldGroups
  rw [hcand]
  constructor
  · rw [filter_isCreate_searchPlan, groupsToCreate_eq]
    rfl
  · intro g hg
    rw [← List.head?_reverse] at hg
    unfold searchPlan
    rw [groupsToCreate_eq]
    cases hrev : ((creationCandidates oldGroups newGroups).filter
        (fun g => dedicatedManagersGroup g)).reverse with
    | nil => rw [hrev] at hg; simp at hg
    | cons x xs =>
      rw [hrev] at hg
      simp only [List.head?_cons, Option.some.injEq] at hg
      subst hg
      simp [createAddOpenSearchNodeGroupRequest]

/-- With two new dedicated-manager groups the one listed last is created
first. -/
theorem updateOpenSearchNodeGroupsParams_creation_sequence_witness :
    (updateOpenSearchNodeGroupsParams acceptAll [] twoManagersNew ⟨(), []⟩).1.issued =
      [.CREATE (sampleGroup "managersB" {GroupRole.MANAGER} 3),
       .CREATE (sampleGroup "managersA" {GroupRole.MANAGER} 3),
       .CREATE (sampleGroup "data" {GroupRole.DATA} 2)] ∧
    (updateOpenSearchNodeGroupsParams acceptAll [] twoManagersNew ⟨(), []⟩).1.issued[0]? =
      some (.CREATE (sampleGroup "managersB" {GroupRole.MANAGER} 3)) :=
  ⟨by decide,
    (updateOpenSearchNodeGroupsParams_creation_sequence acceptAll (fun _ _ => rfl) []
      twoManagersNew ()).2 (sampleGroup "managersB" {GroupRole.MANAGER} 3) (by decide)⟩

/-! ## The retry budget -/

theorem count_request_retriedEvents (a : Attempt) :
    a.retriedEvents.count Event.request = 1 := by
  unfold Attempt.retriedEvents
  split <;> decide

theorem shouldRetry_eq_true_iff (opFailed : Bool) (err : Option GoError) :
    shouldRetry opFailed err = true ↔
      (∃ e, err = some e ∧ statusFromError e = some codesInternal) ∨
        (err = none ∧ opFailed = true) := by
  cases err with
  | none => cases opFailed <;> simp [shouldRetry]
  | some e =>
    cases hs : statusFromError e with
    | none => simp [shouldRetry, hs]
    | some c =>
      by_cases hc : c = codesInternal
      · subst hc; simp [shouldRetry, hs]
      · simp [shouldRetry, hs, hc]

/-- The loop started with `retryCount` runs `n ≤ retryCount` cycles; a cycle
has a successor only when it was retried; all of them run when each is
retried. -/
theorem waitLoop_cycles (caller : String) (remote : Nat → Attempt) :
    ∀ (retryCount k : Nat) (err : Option GoError) (log : List Event),
      ∃ n, (waitLoop caller remote retryCount k err log).events.count Event.request =
          log.count Event.request + n ∧
        n ≤ retryCount ∧
        (∀ j, j + 1 < n → (remote (k + j)).retried = true) ∧
        ((∀ j, j < retryCount → (remote (k + j)).retried = true) → n = retryCount) := by
  intro retryCount
  induction retryCount with
  | zero => intro k err log; exact ⟨0, by simp [waitLoop], Nat.le_refl _, by omega, fun _ => rfl⟩
  | succ r ih =>
    intro k err log
    by_cases hret : (remote k).retried = true
    · rw [waitLoop_retried caller remote r k err log hret]
      obtain ⟨n, hcount, hle, honly, hall⟩ := ih (k + 1) err (log ++ (remote k).retriedEvents)
      refine ⟨n + 1, ?_, by omega, ?_, ?_⟩
      · rw [hcount, List.count_append, count_request_retriedEvents]
        omega
      · intro j hj
        cases j with
        | zero => simpa using hret
        | succ j =>
          have := honly j (by omega)
          rwa [show k + 1 + j = k + (j + 1) by omega] at this
      · intro h
        have : n = r := hall (fun j hj => by
          have := h (j + 1) (by omega)
          rwa [show k + (j + 1) = k + 1 + j by omega] at this)
        omega
    · have hone : (waitLoop caller remote (r + 1) k err log).events.count Event.request =
          log.count Event.request + 1 := by
        simp only [Attempt.retried, Bool.and_eq_true, Bool.or_eq_true,
          Option.isNone_iff_eq_none, not_and, not_or, Bool.not_eq_true] at hret
        cases hreq : (remote k).request with
        | some e => simp [waitLoop, hreq]
        | none =>
          have := hret hreq
          simp [waitLoop, hreq, this.1, this.2]
      refine ⟨1, hone, by omega, by omega, ?_⟩
      intro h
      have := h 0 (Nat.succ_pos r)
      rw [Nat.add_zero] at this
      exact absurd this hret

/-- C14: `waitOperationWithRetry` is a total function that runs at most 5
call-and-wait cycles; cycle `j + 1` runs only if cycle `j` was retried, that
is its request succeeded and `shouldRetry` held after `Wait` or after
`Response`; exactly 5 cycles run when each of the 5 is retried; and
`shouldRetry` holds exactly for a non-nil error with gRPC code Internal or
for a nil error with the failed flag of the operation set. -/
theorem waitOperationWithRetry_retry_budget (caller : String) (remote : Nat → Attempt) :
    (waitOperationWithRetry caller remote).cycles ≤ 5 ∧
    (∀ j, j + 1 < (waitOperationWithRetry caller remote).cycles →
      (remote j).request = none ∧
        (shouldRetry (remote j).failedAfterWait (remote j).wait = true ∨
          shouldRetry (remote j).failedAfterResponse (remote j).response = true)) ∧
    ((∀ j, j < 5 → (remote j).retried = true) →
      (waitOperationWithRetry caller remote).cycles = 5) ∧
    (∀ (opFailed : Bool) (err : Option GoError), shouldRetry opFailed err = true ↔
      (∃ e, err = some e ∧ statusFromError e = some codesInternal) ∨
        (err = none ∧ opFailed = true)) := by
  obtain ⟨n, hcount, hle, honly, hall⟩ :=
    waitLoop_cycles caller remote yandexMDBOpenSearchOperationsRetryCount 0 none []
  have hn : (waitOperationWithRetry caller remote).cycles = n := by
    unfold WaitResult.cycles waitOperationWithRetry
    rw [hcount]
    simp
  rw [hn]
  refine ⟨hle, ?_, ?_, shouldRetry_eq_true_iff⟩
  · intro j hj
    have := honly j hj
    rw [Nat.zero_add] at this
    simpa [Attempt.retried, Bool.and_eq_true, Bool.or_eq_true] using this
  · intro h
    exact hall (fun j hj => by rw [Nat.zero_add]; exact h j hj)

/-- With every cycle ending in a gRPC Internal error exactly 5 cycles run. -/
theorem waitOperationWithRetry_retry_budget_witness :
    (∀ j, j < 5 → (remoteAlwaysInternal j).retried = true) ∧
    (waitOperationWithRetry "Update NodeGroup" remoteAlwaysInternal).cycles = 5 ∧
    (waitOperationWithRetry "Update NodeGroup" remoteHealthy).cycles = 1 :=
  ⟨by decide,
    (waitOperationWithRetry_retry_budget "Update NodeGroup" remoteAlwaysInternal).2.2.1
      (by decide),
    by decide⟩

/-! ## Host listing -/

theorem listLoop_pages {σ η : Type} (service : HostsService σ η) (defaultMDBPageSize : Nat)
    (clusterID : String) :
    ∀ (pages : List (ListClusterHostsResponse η)), wellPaged pages →
      ∀ (fuel : Nat) (st : σ) (hosts : List η) (pageToken : String)
        (sent : List ListClusterHostsRequest), pages.length ≤ fuel →
        serviceAnswers service st (pageRequests defaultMDBPageSize clusterID pageToken pages) =
          pages.map Except.ok →
        listLoop service defaultMDBPageSize clusterID fuel st hosts pageToken sent =
          some ⟨serviceStateAfter service st
              (pageRequests defaultMDBPageSize clusterID pageToken pages),
            sent ++ pageRequests defaultMDBPageSize clusterID pageToken pages,
            .ok (hosts ++ pages.flatMap (fun p => p.Hosts))⟩ := by
  intro pages
  induction pages with
  | nil => intro h; exact absurd h (by simp [wellPaged])
  | cons p rest ih =>
    intro hwell fuel st hosts pageToken sent hfuel hserve
    cases fuel with
    | zero => simp at hfuel
    | succ fuel =>
      simp only [pageRequests, serviceAnswers, List.map_cons, List.cons.injEq] at hserve
      obtain ⟨hhead, htail⟩ := hserve
      have hcall : service st ⟨clusterID, defaultMDBPageSize, pageToken⟩ =
          ((service st ⟨clusterID, defaultMDBPageSize, pageToken⟩).1, Except.ok p) := by
        rw [← hhead]
      cases rest with
      | nil =>
        have hlast : p.NextPageToken = "" ∨ p.NextPageToken = "0" := hwell
        rw [listLoop, hcall]
        simp [hlast, pageRequests, serviceStateAfter, List.flatMap, List.flatten]
      | cons q rest =>
        obtain ⟨hmore, hwell1⟩ : (p.NextPageToken ≠ "" ∧ p.NextPageToken ≠ "0") ∧
            wellPaged (q :: rest) := hwell
        have hcont : ¬ (p.NextPageToken = "" ∨ p.NextPageToken = "0") := by
          intro h
          rcases h with h | h
          · exact hmore.1 h
          · exact hmore.2 h
        rw [listLoop, hcall]
        simp only [hcont, if_false]
        rw [ih hwell1 fuel _ _ _ _ (by simpa using hfuel) htail]
        simp [pageRequests, serviceStateAfter, List.flatMap, List.flatten]

theorem length_pageRequests {η : Type} (defaultMDBPageSize : Nat) (clusterID : String) :
    ∀ (pages : List (ListClusterHostsResponse η)) (pageToken : String),
      (pageRequests defaultMDBPageSize clusterID pageToken pages).length = pages.length := by
  intro pages
  induction pages with
  | nil => intro _; rfl
  | cons p rest ih => intro tok; simp [pageRequests, ih]

/-- C12: when the service answers the requests for the pages `p1..pn` (the
first with the empty page token, each later one with the token of the page
before) with these pages, every page but the last carrying a token that is
neither empty nor `"0"` and the last one the empty token or `"0"`, then
`listOpensearchHosts`, given at least `n` iterations, ends: it sent exactly
these `n` requests and returns the concatenation of the host lists in page
order, whose length is the sum of the page lengths. -/
theorem listOpensearchHosts_concatenates_pages {σ η : Type} (service : HostsService σ η)
    (defaultMDBPageSize : Nat) (clusterID : String) (st : σ)
    (pages : List (ListClusterHostsResponse η)) (fuel : Nat) (hwell : wellPaged pages)
    (hserve : serviceAnswers service st
      (pageRequests defaultMDBPageSize clusterID "" pages) = pages.map Except.ok)
    (hfuel : pages.length ≤ fuel) :
    ∃ r, listOpensearchHosts fuel service defaultMDBPageSize clusterID st = some r ∧
      r.requests = pageRequests defaultMDBPageSize clusterID "" pages ∧
      r.requests.length = pages.length ∧
      r.result = .ok (pages.flatMap (fun p => p.Hosts)) ∧
      (pages.flatMap (fun p => p.Hosts)).length = (pages.map (fun p => p.Hosts.length)).sum := by
  refine ⟨_, listLoop_pages service defaultMDBPageSize clusterID pages hwell fuel st [] "" []
    hfuel hserve, ?_, ?_, ?_, ?_⟩
  · simp
  · simp [length_pageRequests]
  · simp
  · simp [List.flatMap, List.length_flatten, List.map_map, Function.comp_def]

/-- Scenario E of the specification: the tokens `"a"`, `"b"`, `""` give three
requests and the five hosts of the three pages. -/
theorem listOpensearchHosts_concatenates_pages_witness :
    ∃ r, listOpensearchHosts 3 threePagesService 1000 "cluster1" 0 = some r ∧
      r.requests = pageRequests 1000 "cluster1" "" threePages ∧
      r.requests.length = threePages.length ∧
      r.result = .ok (threePages.flatMap (fun p => p.Hosts)) ∧
      (threePages.flatMap (fun p => p.Hosts)).length =
        (threePages.map (fun p => p.Hosts.length)).sum :=
  listOpensearchHosts_concatenates_pages threePagesService 1000 "cluster1" 0 threePages 3
    ⟨⟨by decide, by decide⟩, ⟨by decide, by decide⟩, Or.inl rfl⟩ (by decide) (by decide)

/-! ## Change detection on the node groups -/

theorem len_eq_of_reflectDeepEqual {α : Type} [DecidableEq α] (a b : GoSlice α)
    (h : reflectDeepEqual a b = true) : a.len = b.len := by
  cases a with
  | none =>
    cases b with
    | none => rfl
    | some y => simp [reflectDeepEqual] at h
  | some x =>
    cases b with
    | none => simp [reflectDeepEqual] at h
    | some y =>
      simp only [reflectDeepEqual, decide_eq_true_eq] at h
      rw [h]

theorem isNodeGroupsChanged_of_specs (oldC newC : ConfigCreateSpec)
    (oldOS newOS : OpenSearchCreateSpec) (oldDS newDS : DashboardsCreateSpec)
    (h1 : oldC.OpensearchSpec = some oldOS) (h2 : newC.OpensearchSpec = some newOS)
    (h3 : oldC.DashboardsSpec = some oldDS) (h4 : newC.DashboardsSpec = some newDS) :
    isNodeGroupsChanged (some oldC) (some newC) =
      (!reflectDeepEqual oldOS.NodeGroups newOS.NodeGroups ||
        !reflectDeepEqual oldDS.NodeGroups newDS.NodeGroups) := by
  simp only [isNodeGroupsChanged, h1, h2, h3, h4]
  cases hos : reflectDeepEqual oldOS.NodeGroups newOS.NodeGroups
  · by_cases hl1 : oldOS.NodeGroups.len = newOS.NodeGroups.len
    · by_cases hl2 : oldDS.NodeGroups.len = newDS.NodeGroups.len
      · simp [hl1, hl2]
      · simp [hl1, hl2]
    · simp [hl1]
  · have hl1 := len_eq_of_reflectDeepEqual _ _ hos
    cases hds : reflectDeepEqual oldDS.NodeGroups newDS.NodeGroups
    · by_cases hl2 : oldDS.NodeGroups.len = newDS.NodeGroups.len
      · simp [hl1, hl2]
      · simp [hl1, hl2]
    · have hl2 := len_eq_of_reflectDeepEqual _ _ hds
      simp [hl1, hl2]

theorem isNodeGroupsChangedWithoutLengths_of_specs (oldC newC : ConfigCreateSpec)
    (oldOS newOS : OpenSearchCreateSpec) (oldDS newDS : DashboardsCreateSpec)
    (h1 : oldC.OpensearchSpec = some oldOS) (h2 : newC.OpensearchSpec = some newOS)
    (h3 : oldC.DashboardsSpec = some oldDS) (h4 : newC.DashboardsSpec = some newDS) :
    isNodeGroupsChangedWithoutLengths (some oldC) (some newC) =
      (!reflectDeepEqual oldOS.NodeGroups newOS.NodeGroups ||
        !reflectDeepEqual oldDS.NodeGroups newDS.NodeGroups) := by
  simp only [isNodeGroupsChangedWithoutLengths, h1, h2, h3, h4]
  cases reflectDeepEqual oldOS.NodeGroups newOS.NodeGroups <;>
    cases reflectDeepEqual oldDS.NodeGroups newDS.NodeGroups <;> rfl

theorem isNodeGroupsChanged_of_nil (oldConfig newConfig : Option ConfigCreateSpec)
    (h : someSpecIsNil oldConfig newConfig) : isNodeGroupsChanged oldConfig newConfig = false := by
  unfold someSpecIsNil at h
  cases oldConfig with
  | none => rfl
  | some oldC =>
    cases newConfig with
    | none => rfl
    | some newC =>
      simp only [Option.bind, reduceCtorEq, false_or] at h
      simp only [isNodeGroupsChanged]
      cases h1 : oldC.OpensearchSpec <;> cases h2 : newC.OpensearchSpec <;>
        cases h3 : oldC.DashboardsSpec <;> cases h4 : newC.DashboardsSpec <;>
        simp_all

theorem isNodeGroupsChanged_eq_withoutLengths (oldConfig newConfig : Option ConfigCreateSpec) :
    isNodeGroupsChanged oldConfig newConfig =
      isNodeGroupsChangedWithoutLengths oldConfig newConfig := by
  cases oldConfig with
  | none => rfl
  | some oldC =>
    cases newConfig with
    | none => rfl
    | some newC =>
      cases h1 : oldC.OpensearchSpec with
      | none => simp [isNodeGroupsChanged, isNodeGroupsChangedWithoutLengths, h1]
      | some oldOS =>
        cases h2 : newC.OpensearchSpec with
        | none => simp [isNodeGroupsChanged, isNodeGroupsChangedWithoutLengths, h1, h2]
        | some newOS =>
          cases h3 : oldC.DashboardsSpec with
          | none => simp [isNodeGroupsChanged, isNodeGroupsChangedWithoutLengths, h1, h2, h3]
          | some oldDS =>
            cases h4 : newC.DashboardsSpec with
            | none =>
              simp [isNodeGroupsChanged, isNodeGroupsChangedWithoutLengths, h1, h2, h3, h4]
            | some newDS =>
              rw [isNodeGroupsChanged_of_specs oldC newC oldOS newOS oldDS newDS h1 h2 h3 h4,
                isNodeGroupsChangedWithoutLengths_of_specs oldC newC oldOS newOS oldDS newDS
                  h1 h2 h3 h4]

theorem reflectDeepEqual_eq_true_iff {α : Type} [DecidableEq α] (a b : GoSlice α) :
    reflectDeepEqual a b = true ↔ a = b := by
  cases a with
  | none => cases b <;> simp [reflectDeepEqual]
  | some x => cases b <;> simp [reflectDeepEqual]

/-- C16: `isNodeGroupsChanged` returns false whenever one of the two configs,
the two OpenSearch specs or the two dashboards specs is nil; when all six are
present it returns true exactly when the search-tier node-group slices differ
or the dashboard-tier ones differ, as values compared in order, element by
element and field by field (what `reflect.DeepEqual` decides); and it agrees
on every input with the same function without the two length comparisons. -/
theorem isNodeGroupsChanged_spec :
    (∀ oldConfig newConfig, someSpecIsNil oldConfig newConfig →
      isNodeGroupsChanged oldConfig newConfig = false) ∧
    (∀ (oldC newC : ConfigCreateSpec) (oldOS newOS : OpenSearchCreateSpec)
        (oldDS newDS : DashboardsCreateSpec),
      oldC.OpensearchSpec = some oldOS → newC.OpensearchSpec = some newOS →
      oldC.DashboardsSpec = some oldDS → newC.DashboardsSpec = some newDS →
      (isNodeGroupsChanged (some oldC) (some newC) = true ↔
        oldOS.NodeGroups ≠ newOS.NodeGroups ∨ oldDS.NodeGroups ≠ newDS.NodeGroups)) ∧
    (∀ oldConfig newConfig, isNodeGroupsChanged oldConfig newConfig =
      isNodeGroupsChangedWithoutLengths oldConfig newConfig) := by
  refine ⟨isNodeGroupsChanged_of_nil, ?_, isNodeGroupsChanged_eq_withoutLengths⟩
  intro oldC newC oldOS newOS oldDS newDS h1 h2 h3 h4
  rw [isNodeGroupsChanged_of_specs oldC newC oldOS newOS oldDS newDS h1 h2 h3 h4]
  have hos := reflectDeepEqual_eq_true_iff oldOS.NodeGroups newOS.NodeGroups
  have hds := reflectDeepEqual_eq_true_iff oldDS.NodeGroups newDS.NodeGroups
  cases h5 : reflectDeepEqual oldOS.NodeGroups newOS.NodeGroups <;>
    cases h6 : reflectDeepEqual oldDS.NodeGroups newDS.NodeGroups <;>
    simp_all

/-- Without a dashboards spec no change is reported although the search-tier
groups differ; with all specs present, a group whose roles are listed in
another order is a change, a nil slice against an empty one is a change, and
a configuration compared with itself is none. -/
theorem isNodeGroupsChanged_spec_witness :
    someSpecIsNil (some configWithoutDashboards) (some configRolesInOrder) ∧
    isNodeGroupsChanged (some configWithoutDashboards) (some configRolesInOrder) = false ∧
    isNodeGroupsChanged (some configRolesInOrder) (some configRolesSwapped) = true ∧
    isNodeGroupsChanged (some configNilDashboards) (some configEmptyDashboards) = true ∧
    ¬ (isNodeGroupsChanged (some configRolesInOrder) (some configRolesInOrder) = true) :=
  ⟨Or.inr (Or.inr (Or.inr (Or.inr (Or.inl rfl)))),
    isNodeGroupsChanged_spec.1 (some configWithoutDashboards) (some configRolesInOrder)
      (Or.inr (Or.inr (Or.inr (Or.inr (Or.inl rfl))))),
    (isNodeGroupsChanged_spec.2.1 configRolesInOrder configRolesSwapped _ _ _ _
      rfl rfl rfl rfl).2 (Or.inl (by decide)),
    (isNodeGroupsChanged_spec.2.1 configNilDashboards configEmptyDashboards _ _ _ _
      rfl rfl rfl rfl).2 (Or.inr (by decide)),
    fun h => ((isNodeGroupsChanged_spec.2.1 configRolesInOrder configRolesInOrder _ _ _ _
      rfl rfl rfl rfl).1 h).elim (fun h1 => h1 rfl) (fun h2 => h2 rfl)⟩

end OpenSearch
